import Mathlib

/-!
Verification development for the `saba` rendering engine
(`saba_core`): a shallow embedding, in Lean 4, of the data model and of
the operations of the HTML/CSS front end, the small JS runtime, and the
layout stage, together with theorems that settle the specification
claims against the code.

Conventions of the embedding:
* `Rc<RefCell<Node>>` / `Option<Rc<RefCell<Node>>>` trees are embedded
  as pure inductive trees in first-child / next-sibling form, with an
  explicit `nil` constructor playing the role of `None`.
* Rust `u64` arithmetic is embedded on `Nat` with explicit wrapping
  `% 2 ^ 64` (release-mode semantics); Rust `i64` quantities of the
  layout stage are embedded as `Int` (no layout computation here comes
  near the 64-bit boundary).
* Code paths that panic (`panic!`, `unimplemented!`, `expect`, index
  out of bounds) are embedded in `Except String`; loops whose progress
  is not structural take an explicit fuel argument, and running out of
  fuel is reported separately from a Rust panic.
-/

set_option maxHeartbeats 1000000

namespace Saba

/-! ## DOM data model (`renderer/dom/node.rs`, `renderer/html/attribute.rs`) -/

/-- `Attribute` — an HTML `name="value"` pair. -/
structure Attribute where
  name : String
  value : String
deriving DecidableEq, Repr

/-- `ElementKind` — the closed set of supported tag kinds. -/
inductive ElementKind where
  | html | head | style | script | body | p | h1 | h2 | a
deriving DecidableEq, Repr

/-- `impl Display for ElementKind` — the lower-case tag name. -/
def ElementKind.toStr : ElementKind → String
  | .html => "html"
  | .head => "head"
  | .style => "style"
  | .script => "script"
  | .body => "body"
  | .h1 => "h1"
  | .h2 => "h2"
  | .p => "p"
  | .a => "a"

/-- `Element` — tag kind plus ordered attribute list. -/
structure Element where
  kind : ElementKind
  attributes : List Attribute
deriving DecidableEq, Repr

/-- `Element::get_attribute` — first attribute with the given name, or none. -/
def Element.getAttribute (e : Element) (name : String) : Option String :=
  match e.attributes.find? (fun attr => attr.name = name) with
  | some attr => some attr.value
  | none => none

/-- `Element::is_block_element` — body, h1, h2, p are block by default. -/
def Element.isBlockElement (e : Element) : Bool :=
  match e.kind with
  | .body | .h1 | .h2 | .p => true
  | _ => false

/-- `NodeKind` — Document, Element or Text. -/
inductive NodeKind where
  | document
  | element (e : Element)
  | text (s : String)
deriving DecidableEq, Repr

/-- The DOM tree in first-child / next-sibling form.  `nil` embeds the
Rust `None`; `node k c s` embeds an `Rc<RefCell<Node>>` whose kind is
`k`, whose `first_child` is `c` and whose `next_sibling` is `s`.
(The non-owning `parent` / `previous_sibling` / `last_child` back links
of the Rust struct are derivable from the tree and are not stored.) -/
inductive Dom where
  | nil
  | node (kind : NodeKind) (firstChild : Dom) (nextSibling : Dom)
deriving DecidableEq, Repr

/-! ## JS runtime values and environments (`renderer/js/runtime.rs`) -/

/-- Wrapping `u64` addition (Rust release semantics). -/
def u64Add (x y : Nat) : Nat := (x + y) % 2 ^ 64

/-- Wrapping `u64` subtraction (Rust release semantics): the value of
`x.wrapping_sub y`, i.e. `(x - y) mod 2 ^ 64` over the integers. -/
def u64Sub (x y : Nat) : Nat := ((((x : Int) - (y : Int)) % (2 ^ 64))).toNat

/-- `RuntimeValue` — `Number(u64)`, `StringLiteral`, or a DOM handle
`HtmlElement { object, property }`. -/
inductive RuntimeValue where
  | number (n : Nat)
  | stringLiteral (s : String)
  | htmlElement (object : Dom) (property : Option String)
deriving DecidableEq, Repr

/-- `impl Display for RuntimeValue` — the canonical textual form used by
string concatenation and `textContent` assignment.  The Rust code prints
an `HtmlElement` as `format!("HtmlElement: {:#?}", object)`; this
embedding renders the label followed by the structural `Repr` of the
pure tree, standing in for the derived `Debug` output (no claim depends
on the exact characters of this arm). -/
def RuntimeValue.toStr : RuntimeValue → String
  | .number n => Nat.repr n
  | .stringLiteral s => s
  | .htmlElement object _ => "HtmlElement: " ++ (reprStr object)

/-- `impl Add for RuntimeValue` — numeric addition on two Numbers,
otherwise string concatenation of the two textual forms. -/
def RuntimeValue.add : RuntimeValue → RuntimeValue → RuntimeValue
  | .number l, .number r => .number (u64Add l r)
  | l, r => .stringLiteral (l.toStr ++ r.toStr)

/-- `impl Sub for RuntimeValue` — numeric subtraction on two Numbers,
otherwise `Number(u64::MIN)` (that is, `Number(0)`). -/
def RuntimeValue.sub : RuntimeValue → RuntimeValue → RuntimeValue
  | .number l, .number r => .number (u64Sub l r)
  | _, _ => .number 0

/-- `type VariableMap = Vec<(String, Option<RuntimeValue>)>`. -/
abbrev VariableMap := List (String × Option RuntimeValue)

/-- `Environment` — a frame of bindings plus a link to the outer frame
(`outer: Option<Rc<RefCell<Environment>>>`).  The linked chain is
embedded as the list of frames, innermost first: `vars :: outer` stands
for `Environment { variables: vars, outer }`, and `[]` for an absent
outer link. -/
abbrev Environment := List VariableMap

/-- `Environment::get_variable` — linear search of the current frame
(the stored `Option<RuntimeValue>` of the first matching entry is
returned as is), delegating to the outer frame only when the current
frame has no entry for the name. -/
def getVariable : Environment → String → Option RuntimeValue
  | [], _ => none
  | vars :: outer, name =>
    match vars.find? (fun v => v.1 = name) with
    | some v => v.2
    | none => getVariable outer name

/-- `Environment::add_variable` — push a `(name, value)` entry at the
end of the current frame (no duplicate check). -/
def addVariable (env : Environment) (name : String)
    (value : Option RuntimeValue) : Environment :=
  match env with
  | [] => []
  | vars :: outer => (vars ++ [(name, value)]) :: outer

/-- The loop of `Environment::update_variable`: find the first entry
with the given name, remove it, and push `(name, value)` at the end of
the vector; leave the vector unchanged when no entry matches. -/
def updateVars : List (String × Option RuntimeValue) → String →
    Option RuntimeValue → List (String × Option RuntimeValue)
  | [], _, _ => []
  | (n, v) :: rest, name, value =>
    if n = name then rest ++ [(name, value)]
    else (n, v) :: updateVars rest name value

/-- `Environment::update_variable` — updates the variable vector of the
frame it is called on only; the outer chain is not consulted. -/
def updateVariable (env : Environment) (name : String)
    (value : Option RuntimeValue) : Environment :=
  match env with
  | [] => []
  | vars :: outer => updateVars vars name value :: outer

/-- The `Node::AssignmentExpression` arm of `JsRuntime::eval` for an
`Identifier` left-hand side and operator `=`: the right-hand side has
already been evaluated to `newValue`, and the arm calls
`env.borrow_mut().update_variable(id, new_value)` on the current
environment. -/
def evalAssignIdentifier (env : Environment) (id : String)
    (newValue : Option RuntimeValue) : Environment :=
  updateVariable env id newValue

/-- The `Node::Identifier` arm of `JsRuntime::eval`: a resolved variable
yields its value, an unresolved name yields `StringLiteral(name)`. -/
def evalIdentifier (env : Environment) (name : String) : Option RuntimeValue :=
  match getVariable env name with
  | some v => some v
  | none => some (.stringLiteral name)

/-- The `Node::VariableDeclarator` arm of `JsRuntime::eval` for a
declarator `var name;` without initializer: `self.eval(&init, ...)` of
the absent initializer is `None`, and `add_variable(name, None)` runs on
the current environment. -/
def evalVarDeclaratorNoInit (env : Environment) (name : String) : Environment :=
  addVariable env name none

/-- Statement-side helper: the stored `Option<RuntimeValue>` of the
first entry for `name` in the innermost frame that mentions `name`
(`none` when no frame in the chain mentions it). -/
def firstStored : Environment → String → Option (Option RuntimeValue)
  | [], _ => none
  | vars :: outer, name =>
    match vars.find? (fun v => v.1 = name) with
    | some v => some v.2
    | none => firstStored outer name

/-- Statement-side helper: whether the frame's variable vector holds an
entry for `name`. -/
def holdsName (vars : List (String × Option RuntimeValue)) (name : String) : Bool :=
  vars.any (fun v => v.1 = name)

/-! ## CSSOM (`renderer/css/token.rs`, `renderer/css/cssom.rs`)

The `Number` CSS token carries an `f64` in the Rust code; the only
declarations the style stage interprets (`background-color`, `color`,
`display`) never read it, so the embedding carries the digit/dot
character sequence the tokenizer consumed instead of a float. -/

/-- `CssToken`. -/
inductive CssToken where
  | hashToken (s : String)
  | delim (c : Char)
  | number (digits : List Char)
  | colon
  | semiColon
  | openParenthesis
  | closeParenthesis
  | openCurly
  | closeCurly
  | ident (s : String)
  | stringToken (s : String)
  | atKeyword (s : String)
deriving DecidableEq, Repr

/-- `Selector`. -/
inductive Selector where
  | typeSelector (s : String)
  | classSelector (s : String)
  | idSelector (s : String)
  | unknownSelector
deriving DecidableEq, Repr

/-- `Declaration` — property name plus component value (a CSS token). -/
structure Declaration where
  property : String
  value : CssToken
deriving DecidableEq, Repr

/-- `QualifiedRule` — one selector plus its declarations. -/
structure QualifiedRule where
  selector : Selector
  declarations : List Declaration
deriving DecidableEq, Repr

/-- `StyleSheet` — ordered list of qualified rules. -/
structure StyleSheet where
  rules : List QualifiedRule
deriving DecidableEq, Repr

/-! ## Computed style (`renderer/layout/computed_style.rs`) -/

/-- `Color` — optional color name plus `#RRGGBB` code string. -/
structure Color where
  name : Option String
  code : String
deriving DecidableEq, Repr

/-- `Color::white`. -/
def Color.white : Color := ⟨some "white", "#ffffff"⟩

/-- `Color::black`. -/
def Color.black : Color := ⟨some "black", "#000000"⟩

/-- `Color::from_name` — the closed list of 18 supported color names;
any other name is an `UnexpectedInput` error. -/
def Color.fromName (name : String) : Except String Color :=
  let code? : Option String :=
    match name with
    | "black" => some "#000000"
    | "silver" => some "#c0c0c0"
    | "gray" => some "#808080"
    | "white" => some "#ffffff"
    | "maroon" => some "#800000"
    | "red" => some "#ff0000"
    | "purple" => some "#800080"
    | "fuchsia" => some "#ff00ff"
    | "green" => some "#008000"
    | "lime" => some "#00ff00"
    | "olive" => some "#808000"
    | "yellow" => some "#ffff00"
    | "navy" => some "#000080"
    | "blue" => some "#0000ff"
    | "teal" => some "#008080"
    | "aqua" => some "#00ffff"
    | "orange" => some "#ffa500"
    | "lightgray" => some "#d3d3d3"
    | _ => none
  match code? with
  | some code => .ok ⟨some name, code⟩
  | none => .error "color name is not supported yet"

/-- `Color::from_code` — accepts exactly the 18 codes of the supported
names (a `#`-prefixed 7-character string outside the list is an
`UnexpectedInput` error, as is any other shape). -/
def Color.fromCode (code : String) : Except String Color :=
  if code.data.head? ≠ some '#' ∨ code.length ≠ 7 then
    .error "invalid color code"
  else
    let name? : Option String :=
      match code with
      | "#000000" => some "black"
      | "#c0c0c0" => some "silver"
      | "#808080" => some "gray"
      | "#ffffff" => some "white"
      | "#800000" => some "maroon"
      | "#ff0000" => some "red"
      | "#800080" => some "purple"
      | "#ff00ff" => some "fuchsia"
      | "#008000" => some "green"
      | "#00ff00" => some "lime"
      | "#808000" => some "olive"
      | "#ffff00" => some "yellow"
      | "#000080" => some "navy"
      | "#0000ff" => some "blue"
      | "#008080" => some "teal"
      | "#00ffff" => some "aqua"
      | "#ffa500" => some "orange"
      | "#d3d3d3" => some "lightgray"
      | _ => none
    match name? with
    | some name => .ok ⟨some name, code⟩
    | none => .error "color code is not supported yet"

/-- `FontSize`. -/
inductive FontSize where
  | medium | xLarge | xxLarge
deriving DecidableEq, Repr

/-- `FontSize::default` — element-kind initial: h1 is xx-large, h2 is
x-large, everything else medium.  (The Rust function receives the node;
only its kind is read.) -/
def FontSize.defaultFor (nk : NodeKind) : FontSize :=
  match nk with
  | .element e =>
    match e.kind with
    | .h1 => .xxLarge
    | .h2 => .xLarge
    | _ => .medium
  | _ => .medium

/-- `DisplayType`. -/
inductive DisplayType where
  | block | inline | displayNone
deriving DecidableEq, Repr

/-- `DisplayType::default` — Document is block, an element is block iff
`is_block_element`, text is inline. -/
def DisplayType.defaultFor (nk : NodeKind) : DisplayType :=
  match nk with
  | .document => .block
  | .element e => if e.isBlockElement then .block else .inline
  | .text _ => .inline

/-- `DisplayType::from_str` — `block` / `inline` / `none`; anything else
is an `UnexpectedInput` error. -/
def DisplayType.fromStr (s : String) : Except String DisplayType :=
  match s with
  | "block" => .ok .block
  | "inline" => .ok .inline
  | "none" => .ok .displayNone
  | _ => .error "display is not supported yet"

/-- `TextDecoration`. -/
inductive TextDecoration where
  | none | underline
deriving DecidableEq, Repr

/-- `TextDecoration::default` — underline for `<a>`, none otherwise. -/
def TextDecoration.defaultFor (nk : NodeKind) : TextDecoration :=
  match nk with
  | .element e =>
    match e.kind with
    | .a => .underline
    | _ => .none
  | _ => .none

/-- `ComputedStyle` — each field optional until cascading / defaulting
fill it.  The Rust `width`/`height` are `f64`; the only value the code
ever stores is `0.0`, embedded as `(0 : Int)`. -/
structure ComputedStyle where
  backgroundColor : Option Color
  color : Option Color
  display : Option DisplayType
  fontSize : Option FontSize
  textDecoration : Option TextDecoration
  height : Option Int
  width : Option Int
deriving DecidableEq, Repr

/-- `ComputedStyle::new` — all fields absent. -/
def ComputedStyle.new : ComputedStyle :=
  ⟨none, none, none, none, none, none, none⟩

/-- The panicking property accessors of `ComputedStyle`
(`expect("failed to access CSS property: ...")`), shared shape. -/
def cssGet {α : Type} (field : Option α) (name : String) : Except String α :=
  match field with
  | some v => .ok v
  | none => .error ("failed to access CSS property: " ++ name)

/-- One inheritance statement of `ComputedStyle::defaulting`:
`if self.<field>.is_none() && parent_style.<field>() != <initial> {
self.<field> = Some(parent_style.<field>()) }` — the parent accessor is
reached only when the field is absent (`&&` short-circuits) and panics
when the parent's field is unset. -/
def inheritStep {α : Type} (cur parentField : Option α) (initial : α)
    [DecidableEq α] (name : String) : Except String (Option α) :=
  if cur.isNone then do
    let pv ← cssGet parentField name
    if pv ≠ initial then pure (some pv) else pure cur
  else pure cur

/-- `ComputedStyle::defaulting` — inherit background-color / color /
font-size / text-decoration from a parent whose value differs from the
initial one (each field updated independently, mirroring the four
sequential `if` statements of the Rust code), then fill every
still-absent field with its initial value (`if x.is_none() { x =
Some(i) }` is written `some (x.getD i)`).  Reading a property of the
parent style goes through the panicking accessor, hence the `Except`.
(The Rust function receives the node; only its kind is read, by the
`*::default` helpers.) -/
def ComputedStyle.defaulting (style : ComputedStyle) (nk : NodeKind)
    (parentStyle : Option ComputedStyle) : Except String ComputedStyle := do
  let style ←
    match parentStyle with
    | some ps => do
      let bg ← inheritStep style.backgroundColor ps.backgroundColor
        Color.white "background_color"
      let co ← inheritStep style.color ps.color Color.black "color"
      let fs ← inheritStep style.fontSize ps.fontSize
        FontSize.medium "font_size"
      let td ← inheritStep style.textDecoration ps.textDecoration
        TextDecoration.none "text_decoration"
      pure { style with
        backgroundColor := bg
        color := co
        fontSize := fs
        textDecoration := td }
    | none => pure style
  pure { style with
    backgroundColor := some (style.backgroundColor.getD Color.white)
    color := some (style.color.getD Color.black)
    display := some (style.display.getD (DisplayType.defaultFor nk))
    fontSize := some (style.fontSize.getD (FontSize.defaultFor nk))
    textDecoration := some
      (style.textDecoration.getD (TextDecoration.defaultFor nk))
    height := some (style.height.getD 0)
    width := some (style.width.getD 0) }

/-! ## Layout constants (`constants.rs`) -/

def windowWidth : Int := 600
def windowHeight : Int := 400
def windowPadding : Int := 5
def titleBarHeight : Int := 24
def toolbarHeight : Int := 26
def contentAreaWidth : Int := windowWidth - windowPadding * 2
def contentAreaHeight : Int :=
  windowHeight - titleBarHeight - toolbarHeight - windowPadding * 2
def charWidth : Int := 8
def charHeight : Int := 16
def charHeightWithPadding : Int := charHeight + 4

/-! ## Layout objects (`renderer/layout/layout_object.rs`) -/

/-- `LayoutObjectKind`. -/
inductive LayoutObjectKind where
  | block | inline | text
deriving DecidableEq, Repr

/-- `LayoutPoint` — x/y in integer pixels (`i64`). -/
structure LayoutPoint where
  x : Int
  y : Int
deriving DecidableEq, Repr

/-- `LayoutSize` — width/height in integer pixels (`i64`). -/
structure LayoutSize where
  width : Int
  height : Int
deriving DecidableEq, Repr

/-- The per-node data of a `LayoutObject`.  `dom` is the DOM node the
object points back to (the Rust `node: Rc<RefCell<Node>>`; always a
`Dom.node`).  `parentKind` embeds the non-owning `parent:
Weak<RefCell<LayoutObject>>` link: the Rust code sets it from the
`parent_obj` argument at creation time (`Weak::new()` when that argument
is `None`) and only ever reads `parent().upgrade()?.node_kind()` from
it, so the embedding records the parent object's DOM node kind, `none`
for an empty weak link. -/
structure LData where
  kind : LayoutObjectKind
  dom : Dom
  style : ComputedStyle
  parentKind : Option NodeKind
  point : LayoutPoint
  size : LayoutSize
deriving DecidableEq, Repr

/-- The layout tree in first-child / next-sibling form; `nil` embeds
`Option::None`. -/
inductive LTree where
  | nil
  | node (data : LData) (firstChild : LTree) (nextSibling : LTree)
deriving DecidableEq, Repr

/-- What the builder hands to children as `parent_obj`: the parent
object's DOM node kind (recorded in the child's weak parent link) and
its computed style (read by `defaulting`). -/
structure LParent where
  nodeKind : NodeKind
  style : ComputedStyle
deriving DecidableEq, Repr

/-- `LayoutObject::is_node_selected` — simple selector matching against
the referenced DOM node: tag-name match for a type selector, exact
`class="..."` / `id="..."` attribute match for class/id selectors,
never for an unknown selector or a non-element node. -/
def isNodeSelected (nk : NodeKind) (selector : Selector) : Bool :=
  match nk with
  | .element e =>
    match selector with
    | .typeSelector typeName => e.kind.toStr = typeName
    | .classSelector className =>
      e.attributes.any (fun attr => attr.name = "class" ∧ attr.value = className)
    | .idSelector idName =>
      e.attributes.any (fun attr => attr.name = "id" ∧ attr.value = idName)
    | .unknownSelector => false
  | _ => false

/-- `LayoutObject::cascading_style` — apply the declarations of a
matching rule in order; supported properties are `background-color`,
`color` and `display`, with unknown color names / codes falling back to
white (background) or black (color) and unknown display keywords to
`display:none`. -/
def cascadingStyle (style : ComputedStyle) (declarations : List Declaration) :
    ComputedStyle :=
  declarations.foldl (fun st decl =>
    match decl.property with
    | "background-color" =>
      match decl.value with
      | .ident v =>
        let c := (Color.fromName v).toOption.getD Color.white
        { st with backgroundColor := some c }
      | .hashToken code =>
        let c := (Color.fromCode code).toOption.getD Color.white
        { st with backgroundColor := some c }
      | _ => st
    | "color" =>
      match decl.value with
      | .ident v =>
        let c := (Color.fromName v).toOption.getD Color.black
        { st with color := some c }
      | .hashToken code =>
        let c := (Color.fromCode code).toOption.getD Color.black
        { st with color := some c }
      | _ => st
    | "display" =>
      match decl.value with
      | .ident v =>
        let dt := (DisplayType.fromStr v).toOption.getD DisplayType.displayNone
        { st with display := some dt }
      | _ => st
    | _ => st) style

/-- `LayoutObject::update_kind` — fix the object kind from the final
display value; a Document node or a `display:none` element reaching this
point is a panic. -/
def updateKind (nk : NodeKind) (display : DisplayType) :
    Except String LayoutObjectKind :=
  match nk with
  | .document => .error "should not create a layout object for a Document node"
  | .element _ =>
    match display with
    | .block => .ok .block
    | .inline => .ok .inline
    | .displayNone => .error "should not create a layout object for display none"
  | .text _ => .ok .text

/-- `create_layout_object` — build the `LayoutObject` for one DOM node:
start from `ComputedStyle::new`, apply every matching rule of the
stylesheet in order (cascading), run defaulting against the parent
style, drop the node when the final display is `none`, and otherwise
finalize the object kind.  The new object's point and size are `(0,0)`
(`LayoutObject::new`). -/
def createLayoutObject (d : Dom) (parentObj : Option LParent)
    (sheet : StyleSheet) : Except String (Option LData) :=
  match d with
  | .nil => .ok none
  | .node k _ _ => do
    let style := sheet.rules.foldl (fun st rule =>
      if isNodeSelected k rule.selector then cascadingStyle st rule.declarations
      else st) ComputedStyle.new
    let style ← style.defaulting k (parentObj.map (·.style))
    let display ← cssGet style.display "display"
    if display = DisplayType.displayNone then
      pure none
    else do
      let kind ← updateKind k display
      pure (some
        { kind := kind, dom := d, style := style,
          parentKind := parentObj.map (·.nodeKind),
          point := ⟨0, 0⟩, size := ⟨0, 0⟩ })

/-- The `next_sibling` of a DOM handle (`None` stays `None`). -/
def Dom.sib : Dom → Dom
  | .nil => .nil
  | .node _ _ s => s

/-- Number of handles of a DOM tree (used as the fuel bound of the
layout-tree builder). -/
def Dom.size : Dom → Nat
  | .nil => 1
  | .node _ c s => 1 + c.size + s.size

/-- Failure type of the embedded layout-tree builder: `panicked` embeds
a Rust panic; `fuelOut` is an artifact of the fuel-based embedding of
the recursion (the Rust recursion always terminates, and the fuel
`2 * d.size + 2` used by `buildLayoutTree` is proved sufficient by
`buildF_no_fuelOut` below). -/
inductive BuildFail where
  | panicked (msg : String)
  | fuelOut
deriving DecidableEq, Repr

/-- Lift a panic into the builder's failure type. -/
def liftBuild {α : Type} : Except String α → Except BuildFail α
  | .ok v => .ok v
  | .error msg => .error (.panicked msg)

mutual

/-- `build_layout_tree` — try to create a layout object for the node;
while none is created (`display:none`), move to the next DOM sibling;
then recurse into the first child (parent: the new object) and the next
sibling (parent: `None`), re-trying further siblings when a recursion
returned nothing although the DOM had a node there, and connect the
results.  The recursion is embedded structurally on a fuel argument. -/
def buildF : Nat → Dom → Option LParent → StyleSheet → Except BuildFail LTree
  | 0, _, _, _ => .error .fuelOut
  | fuel + 1, d, parentObj, sheet =>
    match d with
    | .nil => .ok .nil
    | .node k c s => do
      let obj? ← liftBuild (createLayoutObject (.node k c s) parentObj sheet)
      match obj? with
      | none =>
        -- the while loop of the Rust code: try the next sibling
        buildF fuel s parentObj sheet
      | some data => do
        let ctx : LParent := ⟨k, data.style⟩
        let firstChild ← buildF fuel c (some ctx) sheet
        let nextSibling ← buildF fuel s none sheet
        let firstChild ←
          -- `first_child.is_none() && original_first_child.is_some()`:
          -- re-try from the first child's next sibling
          match firstChild, c with
          | .nil, .node _ _ csib => retryF fuel csib (some ctx) sheet
          | fc, _ => pure fc
        let nextSibling ←
          -- `next_sibling.is_none() && n.next_sibling().is_some()`:
          -- re-try from the next sibling's next sibling
          match nextSibling, s with
          | .nil, .node _ _ ssib => retryF fuel ssib none sheet
          | ns, _ => pure ns
        pure (.node data firstChild nextSibling)

/-- The two re-try loops of `build_layout_tree`: keep building at the
next DOM sibling until a layout object is produced or the sibling chain
ends. -/
def retryF : Nat → Dom → Option LParent → StyleSheet → Except BuildFail LTree
  | 0, _, _, _ => .error .fuelOut
  | fuel + 1, od, parentObj, sheet => do
    let r ← buildF fuel od parentObj sheet
    match r, od with
    | .nil, .node _ _ sib => retryF fuel sib parentObj sheet
    | r, _ => pure r

end

/-- `build_layout_tree` with its sufficient fuel. -/
def buildLayoutTree (d : Dom) (parentObj : Option LParent)
    (sheet : StyleSheet) : Except BuildFail LTree :=
  buildF (2 * d.size + 2) d parentObj sheet

/-- `LayoutObject::node_kind` — the kind of the referenced DOM node.
(`dom` is always a `Dom.node`; the `nil` arm is unreachable.) -/
def LData.nodeKind (d : LData) : NodeKind :=
  match d.dom with
  | .node k _ _ => k
  | .nil => .document

/-- The font ratio of `compute_size` / `paint`: medium 1, x-large 2,
xx-large 3. -/
def fontScale (fs : FontSize) : Int :=
  match fs with
  | .medium => 1
  | .xLarge => 2
  | .xxLarge => 3

/-- The child loop of the Block arm of `LayoutObject::compute_size`:
a child's height is added only when the previous child kind was Block or
the child itself is Block (the previous kind starts as Block). -/
def blockChildrenHeight : LTree → LayoutObjectKind → Int
  | .nil, _ => 0
  | .node cd _ csib, prevKind =>
    (if prevKind = .block ∨ cd.kind = .block then cd.size.height else 0) +
      blockChildrenHeight csib cd.kind

/-- The child loop of the Inline arm of `LayoutObject::compute_size`:
sum of the children's widths and heights. -/
def inlineChildrenSize : LTree → Int × Int
  | .nil => (0, 0)
  | .node cd _ csib =>
    let r := inlineChildrenSize csib
    (cd.size.width + r.1, cd.size.height + r.2)

/-- `LayoutObject::compute_size` — Block: width from the parent, height
from the children with the inline-suppression rule; Inline: sums of the
children's sizes; Text: width `CHAR_WIDTH * ratio * t.len()` (`t.len()`
is the UTF-8 byte length of the Rust `String`), clamped to
`CONTENT_AREA_WIDTH` with the wrapped row count
(`wrapping_rem`/`wrapping_div` on positive values are plain `%`/`/`).
The font-size accessor can panic, hence the `Except`. -/
def computeSize (d : LData) (children : LTree) (parentSize : LayoutSize) :
    Except String LData :=
  match d.kind with
  | .block =>
    .ok { d with size := ⟨parentSize.width, blockChildrenHeight children .block⟩ }
  | .inline =>
    let r := inlineChildrenSize children
    .ok { d with size := ⟨r.1, r.2⟩ }
  | .text =>
    match d.nodeKind with
    | .text t => do
      let fs ← cssGet d.style.fontSize "font_size"
      let scale := fontScale fs
      let width := charWidth * scale * (t.utf8ByteSize : Int)
      if width > contentAreaWidth then
        let lineNum :=
          if width % contentAreaWidth = 0 then width / contentAreaWidth
          else width / contentAreaWidth + 1
        pure { d with size :=
          ⟨contentAreaWidth, charHeightWithPadding * scale * lineNum⟩ }
      else
        pure { d with size := ⟨width, charHeightWithPadding * scale⟩ }
    | _ => .ok { d with size := ⟨0, 0⟩ }

/-- `LayoutObject::compute_position` — Block (self or previous sibling):
stack vertically below the previous sibling (or at the parent point);
Inline after Inline: continue the row after the previous sibling; every
other case: the parent point. -/
def computePosition (kind : LayoutObjectKind) (parentPoint : LayoutPoint)
    (previousSiblingKind : LayoutObjectKind)
    (previousSiblingPoint : Option LayoutPoint)
    (previousSiblingSize : Option LayoutSize) : LayoutPoint :=
  match kind, previousSiblingKind with
  | .block, _ | _, .block =>
    match previousSiblingSize, previousSiblingPoint with
    | some size, some pos => ⟨parentPoint.x, pos.y + size.height⟩
    | _, _ => ⟨parentPoint.x, parentPoint.y⟩
  | .inline, .inline =>
    match previousSiblingSize, previousSiblingPoint with
    | some size, some pos => ⟨pos.x + size.width, pos.y⟩
    | _, _ => ⟨parentPoint.x, parentPoint.y⟩
  | _, _ => ⟨parentPoint.x, parentPoint.y⟩

/-- `LayoutView::calculate_node_size` — pre-set a Block's size from the
parent before recursing into the children, recurse into children and
siblings, then finalize the size from the now-sized children. -/
def calculateNodeSize (t : LTree) (parentSize : LayoutSize) :
    Except String LTree :=
  match t with
  | .nil => .ok .nil
  | .node d c s => do
    let d ← if d.kind = .block then computeSize d c parentSize else pure d
    let c ← calculateNodeSize c d.size
    let s ← calculateNodeSize s parentSize
    let d ← computeSize d c parentSize
    pure (.node d c s)

/-- `LayoutView::calculate_node_position` — compute this node's point,
recurse into the children with this point as parent point (previous
sibling seeded as Block / absent), and into the next sibling with the
same parent point and this node as previous sibling. -/
def calculateNodePosition (t : LTree) (parentPoint : LayoutPoint)
    (previousSiblingKind : LayoutObjectKind)
    (previousSiblingPoint : Option LayoutPoint)
    (previousSiblingSize : Option LayoutSize) : LTree :=
  match t with
  | .nil => .nil
  | .node d c s =>
    let pt := computePosition d.kind parentPoint previousSiblingKind
      previousSiblingPoint previousSiblingSize
    let d' := { d with point := pt }
    let c' := calculateNodePosition c pt .block none none
    let s' := calculateNodePosition s parentPoint d.kind (some pt) (some d.size)
    .node d' c' s'

/-- `LayoutView::update_layout` — sizes (content-area width as the root
parent width), then positions from `(0, 0)`. -/
def updateLayout (root : LTree) : Except String LTree := do
  let sized ← calculateNodeSize root ⟨contentAreaWidth, 0⟩
  pure (calculateNodePosition sized ⟨0, 0⟩ .block none none)

/-- `get_target_element_node` (`renderer/dom/api.rs`) — depth-first
search (self, then child, then sibling) for the first element node of
the given kind; the comparison is `NodeKind` equality, which for
elements compares the element kind only. -/
def getTargetElementNode (d : Dom) (elementKind : ElementKind) : Dom :=
  match d with
  | .nil => .nil
  | .node k c s =>
    if (match k with | .element e => decide (e.kind = elementKind) | _ => false) then
      .node k c s
    else
      let result1 := getTargetElementNode c elementKind
      let result2 := getTargetElementNode s elementKind
      if result1 = .nil then result2 else result1

/-- `LayoutView::new` — find the `<body>` element, build the layout tree
from it (with no parent), then run `update_layout`. -/
def layoutViewNew (root : Dom) (sheet : StyleSheet) : Except BuildFail LTree := do
  let bodyRoot := getTargetElementNode root .body
  let tree ← buildLayoutTree bodyRoot none sheet
  liftBuild (updateLayout tree)

/-- `LayoutView::find_node_by_position_internal` — child first, then
sibling, then the node's own inclusive rectangle test. -/
def findNodeByPositionInternal (t : LTree) (position : Int × Int) :
    Option LTree :=
  match t with
  | .nil => none
  | .node d c s =>
    match findNodeByPositionInternal c position with
    | some result1 => some result1
    | none =>
      match findNodeByPositionInternal s position with
      | some result2 => some result2
      | none =>
        if d.point.x ≤ position.1 ∧ position.1 ≤ d.point.x + d.size.width ∧
            d.point.y ≤ position.2 ∧ position.2 ≤ d.point.y + d.size.height then
          some (.node d c s)
        else
          none

/-- `Page::clicked` — with no layout view: `None`; otherwise hit-test,
follow the found node's weak parent link, and return the parent's `href`
attribute when the parent is an `<a>` element. -/
def clicked (layoutView : Option LTree) (position : Int × Int) :
    Option String :=
  match layoutView with
  | none => none
  | some view =>
    match findNodeByPositionInternal view position with
    | some (.node n _ _) =>
      match n.parentKind with
      | some (.element e) =>
        if e.kind = .a then e.getAttribute "href" else none
      | _ => none
    | _ => none

/-! ## Statement-side helpers (not part of the embedded code) -/

/-- The inclusive point-in-rectangle test of the hit test, as a
Boolean. -/
def containsPoint (d : LData) (position : Int × Int) : Bool :=
  decide (d.point.x ≤ position.1 ∧ position.1 ≤ d.point.x + d.size.width ∧
    d.point.y ≤ position.2 ∧ position.2 ≤ d.point.y + d.size.height)

/-- All node data of a layout tree (self, children, siblings). -/
def nodesData : LTree → List LData
  | .nil => []
  | .node d c s => d :: (nodesData c ++ nodesData s)

/-- The DOM nodes referenced by the layout objects of a tree. -/
def listDoms (t : LTree) : List Dom :=
  (nodesData t).map (·.dom)

/-- The style produced by the cascading phase of `create_layout_object`
for a node of the given kind (fold of the matching rules over
`ComputedStyle::new`). -/
def cascadedStyle (sheet : StyleSheet) (k : NodeKind) : ComputedStyle :=
  sheet.rules.foldl (fun st rule =>
    if isNodeSelected k rule.selector then cascadingStyle st rule.declarations
    else st) ComputedStyle.new

/-- The final (cascaded then defaulted) display of a node of the given
kind: the cascaded display when a matching rule set one, the
element-kind initial otherwise.  Display is not inherited, so no parent
style enters. -/
def finalDisplay (sheet : StyleSheet) (k : NodeKind) : DisplayType :=
  (cascadedStyle sheet k).display.getD (DisplayType.defaultFor k)

/-- The DOM occurrences the builder may represent, starting from a DOM
handle: a `display:none` node is dropped together with its child
subtree, and the walk continues with its next sibling. -/
def visibleDoms (sheet : StyleSheet) : Dom → List Dom
  | .nil => []
  | .node k c s =>
    if finalDisplay sheet k = .displayNone then visibleDoms sheet s
    else .node k c s :: (visibleDoms sheet c ++ visibleDoms sheet s)

/-- Whether every recorded parent link of a layout tree matches the
construction: the head of a chain carries the kind handed down by its
creator, every later sibling carries `none`, and each node's child chain
is checked against that node's DOM kind. -/
def recParentOk (pk : Option NodeKind) : LTree → Bool
  | .nil => true
  | .node d c s =>
    decide (d.parentKind = pk) && recParentOk (some d.nodeKind) c &&
      recParentOk none s

/-- The layout tree with every point and size reset to `(0, 0)` — the
part of the tree the size and position passes cannot change. -/
def skeleton : LTree → LTree
  | .nil => .nil
  | .node d c s =>
    .node { d with point := ⟨0, 0⟩, size := ⟨0, 0⟩ } (skeleton c)
      (skeleton s)

/-- Each layout object of a tree paired with the DOM kind of its
structural parent in the tree (the node whose child chain it belongs
to): a node's first child and every later sibling of that child have
the node as structural parent. -/
def treeParentKinds (parent : Option NodeKind) : LTree →
    List (LData × Option NodeKind)
  | .nil => []
  | .node d c s =>
    (d, parent) :: (treeParentKinds (some d.nodeKind) c ++
      treeParentKinds parent s)

/-! ## CSS tokenizer (`renderer/css/token.rs`)

The tokenizer state is the read position plus the character vector.
Index-out-of-bounds accesses and the `unimplemented!` arm are Rust
panics, embedded as `CssFail.panicked`.  The loops of the tokenizer all
advance the position, so the Rust code terminates; the embedding makes
them structural on a fuel argument, and `cssNext` supplies the fuel
`input.length - pos + 2`, proved sufficient by `cssNextF_no_fuelOut`
below.  The `f64` payload of a `Number` token is never read by the
style stage; the embedding stores the consumed digit/dot characters
instead of the float.  The Rust `char::is_alphanumeric` used by the `@`
lookahead is Unicode-aware; the embedding uses the ASCII
`Char.isAlphanum`, which agrees on every input appearing in this
development. -/

/-- Failure type of the embedded CSS tokenizer and parser: `panicked`
embeds a Rust panic; `fuelOut` means the fuel of the embedding ran out
(for the tokenizer this is proved unreachable; for the parser it marks
runs on which the Rust loops diverge). -/
inductive CssFail where
  | panicked (msg : String)
  | fuelOut
deriving DecidableEq, Repr

/-- `CssTokenizer` — read position plus input characters. -/
structure CssTS where
  pos : Nat
  input : List Char
deriving DecidableEq, Repr

/-- `CssTokenizer::new`. -/
def CssTS.new (css : String) : CssTS := ⟨0, css.data⟩

/-- Rust ident-character test of `consume_ident_token`:
letters, digits, `-`, `_`. -/
def isCssIdentChar (c : Char) : Bool :=
  ('a' ≤ c ∧ c ≤ 'z') ∨ ('A' ≤ c ∧ c ≤ 'Z') ∨ ('0' ≤ c ∧ c ≤ '9') ∨
    c = '-' ∨ c = '_'

/-- `CssTokenizer::consume_string_token` — advance past the opening
quote, collecting characters until a quote; reading past the end of the
input is an index panic, and reaching `pos ≥ len` at the loop head ends
the string. -/
def consumeStringTokenF : Nat → CssTS → String →
    Except CssFail (String × CssTS)
  | 0, _, _ => .error .fuelOut
  | fuel + 1, ts, acc =>
    if ts.pos ≥ ts.input.length then .ok (acc, ts)
    else
      match ts.input[ts.pos + 1]? with
      | none => .error (.panicked "index out of bounds")
      | some c =>
        if c = '"' ∨ c = '\'' then .ok (acc, { ts with pos := ts.pos + 1 })
        else consumeStringTokenF fuel { ts with pos := ts.pos + 1 } (acc.push c)

/-- `CssTokenizer::consume_numeric_token` — consume digits and dots
(guarded at the loop head, no panic); the consumed characters stand in
for the `f64` value. -/
def consumeNumericTokenF : Nat → CssTS → List Char →
    Except CssFail (List Char × CssTS)
  | 0, _, _ => .error .fuelOut
  | fuel + 1, ts, acc =>
    match ts.input[ts.pos]? with
    | none => .ok (acc, ts)
    | some c =>
      if (('0' ≤ c ∧ c ≤ '9') ∨ c = '.') then
        consumeNumericTokenF fuel { ts with pos := ts.pos + 1 } (acc ++ [c])
      else .ok (acc, ts)

/-- The loop of `CssTokenizer::consume_ident_token` — each iteration
first advances and then indexes, so an identifier running to the end of
the input is an index panic. -/
def consumeIdentLoopF : Nat → CssTS → String →
    Except CssFail (String × CssTS)
  | 0, _, _ => .error .fuelOut
  | fuel + 1, ts, acc =>
    match ts.input[ts.pos + 1]? with
    | none => .error (.panicked "index out of bounds")
    | some c =>
      if isCssIdentChar c then
        consumeIdentLoopF fuel { ts with pos := ts.pos + 1 } (acc.push c)
      else .ok (acc, { ts with pos := ts.pos + 1 })

/-- `CssTokenizer::consume_ident_token` — the current character (an
index panic when out of range) followed by the ident loop. -/
def consumeIdentToken (fuel : Nat) (ts : CssTS) :
    Except CssFail (String × CssTS) :=
  match ts.input[ts.pos]? with
  | none => .error (.panicked "index out of bounds")
  | some c0 => consumeIdentLoopF fuel ts (String.singleton c0)

/-- `<Iterator for CssTokenizer>::next` — dispatch on the current
character; whitespace and newline loop on; unsupported characters hit
`unimplemented!`.  On success the position is one past the consumed
token. -/
def cssNextF : Nat → CssTS → Except CssFail (Option (CssToken × CssTS))
  | 0, _ => .error .fuelOut
  | fuel + 1, ts =>
    match ts.input[ts.pos]? with
    | none => .ok none
    | some c =>
      if c = '(' then .ok (some (.openParenthesis, { ts with pos := ts.pos + 1 }))
      else if c = ')' then .ok (some (.closeParenthesis, { ts with pos := ts.pos + 1 }))
      else if c = ',' then .ok (some (.delim ',', { ts with pos := ts.pos + 1 }))
      else if c = '.' then .ok (some (.delim '.', { ts with pos := ts.pos + 1 }))
      else if c = ':' then .ok (some (.colon, { ts with pos := ts.pos + 1 }))
      else if c = ';' then .ok (some (.semiColon, { ts with pos := ts.pos + 1 }))
      else if c = '{' then .ok (some (.openCurly, { ts with pos := ts.pos + 1 }))
      else if c = '}' then .ok (some (.closeCurly, { ts with pos := ts.pos + 1 }))
      else if c = ' ' ∨ c = '\n' then cssNextF fuel { ts with pos := ts.pos + 1 }
      else if c = '"' ∨ c = '\'' then do
        let (value, ts) ← consumeStringTokenF fuel ts ""
        .ok (some (.stringToken value, { ts with pos := ts.pos + 1 }))
      else if '0' ≤ c ∧ c ≤ '9' then do
        let (digits, ts) ← consumeNumericTokenF fuel ts []
        -- `self.pos -= 1` then the trailing `self.pos += 1`
        .ok (some (.number digits, ts))
      else if c = '#' then do
        let (value, ts) ← consumeIdentToken fuel ts
        .ok (some (.hashToken value, ts))
      else if c = '-' then do
        let (value, ts) ← consumeIdentToken fuel ts
        .ok (some (.ident value, ts))
      else if c = '@' then
        match ts.input[ts.pos + 1]?, ts.input[ts.pos + 2]?, ts.input[ts.pos + 3]? with
        | some c1, some c2, some c3 =>
          if c1.isAlpha ∧ c2.isAlphanum ∧ c3.isAlphanum then do
            let (value, ts) ← consumeIdentToken fuel { ts with pos := ts.pos + 1 }
            .ok (some (.atKeyword value, ts))
          else .ok (some (.delim '@', { ts with pos := ts.pos + 1 }))
        | _, _, _ => .error (.panicked "index out of bounds")
      else if ('a' ≤ c ∧ c ≤ 'z') ∨ ('A' ≤ c ∧ c ≤ 'Z') ∨ c = '_' then do
        let (value, ts) ← consumeIdentToken fuel ts
        .ok (some (.ident value, ts))
      else .error (.panicked "char is not supported yet")

/-- `<Iterator for CssTokenizer>::next` with its sufficient fuel. -/
def cssNext (ts : CssTS) : Except CssFail (Option (CssToken × CssTS)) :=
  cssNextF (ts.input.length - ts.pos + 2) ts

/-! ## CSS parser (`renderer/css/cssom.rs`)

`CssParser` wraps the tokenizer in a `Peekable`; since the tokenizer is
a deterministic, effect-free function of its state, peeking is embedded
as running `cssNext` and discarding the advanced state.  Loops whose
progress the Rust code does not guarantee (the `consume_selector` /
at-keyword skip loops spin forever at end of input) carry a fuel
argument; exhausting it is reported as `CssFail.fuelOut`, distinct from
an embedded panic. -/

/-- `self.t.next()` on the peekable tokenizer. -/
def pNext (ts : CssTS) : Except CssFail (Option (CssToken × CssTS)) :=
  cssNext ts

/-- `self.t.peek()` on the peekable tokenizer. -/
def pPeek (ts : CssTS) : Except CssFail (Option CssToken) := do
  let r ← cssNext ts
  pure (r.map (·.1))

/-- `CssParser::consume_component_value` — `next().expect(...)`. -/
def consumeComponentValue (ts : CssTS) : Except CssFail (CssToken × CssTS) := do
  match ← pNext ts with
  | some r => pure r
  | none => .error (.panicked "should have a token in consume component value")

/-- `CssParser::consume_ident` — panics on end of input and on any
non-identifier token. -/
def consumeIdent (ts : CssTS) : Except CssFail (String × CssTS) := do
  match ← pNext ts with
  | none => .error (.panicked "should have a token but got None")
  | some (.ident s, ts) => pure (s, ts)
  | some _ => .error (.panicked "unexpected token")

/-- `CssParser::consume_declaration` — `None` on empty input, a property
identifier (panics on a non-identifier), `None` when the next token is
not a colon, then the component value (panics on end of input). -/
def consumeDeclaration (ts : CssTS) :
    Except CssFail (Option Declaration × CssTS) := do
  match ← pPeek ts with
  | none => pure (none, ts)
  | some _ => do
    let (property, ts) ← consumeIdent ts
    match ← pNext ts with
    | some (.colon, ts) => do
      let (value, ts) ← consumeComponentValue ts
      pure (some ⟨property, value⟩, ts)
    | some (_, ts) => pure (none, ts)
    | none => pure (none, ts)

/-- `CssParser::consume_list_of_declarations` — collect declarations
until `}` or end of input. -/
def consumeListOfDeclarations (ts : CssTS) (acc : List Declaration)
    (fuel : Nat) : Except CssFail (List Declaration × CssTS) :=
  match fuel with
  | 0 => .error .fuelOut
  | fuel + 1 => do
    match ← pPeek ts with
    | none => pure (acc, ts)
    | some .closeCurly => do
      match ← pNext ts with
      | some (_, ts) => pure (acc, ts)
      | none => pure (acc, ts)
    | some .semiColon => do
      match ← pNext ts with
      | some (_, ts) => consumeListOfDeclarations ts acc fuel
      | none => consumeListOfDeclarations ts acc fuel
    | some (.ident _) => do
      let (decl?, ts) ← consumeDeclaration ts
      match decl? with
      | some decl => consumeListOfDeclarations ts (acc ++ [decl]) fuel
      | none => consumeListOfDeclarations ts acc fuel
    | some _ => do
      match ← pNext ts with
      | some (_, ts) => consumeListOfDeclarations ts acc fuel
      | none => consumeListOfDeclarations ts acc fuel

/-- The `while self.t.peek() != Some(&CssToken::OpenCurly) { self.t.next(); }`
skip loops of `consume_selector`: at end of input `peek` never becomes
`Some(OpenCurly)` and `next` makes no progress, so the Rust loop spins
forever — the fuel runs out. -/
def skipToOpenCurly (ts : CssTS) (fuel : Nat) : Except CssFail CssTS :=
  match fuel with
  | 0 => .error .fuelOut
  | fuel + 1 => do
    match ← pPeek ts with
    | some .openCurly => pure ts
    | _ => do
      match ← pNext ts with
      | some (_, ts) => skipToOpenCurly ts fuel
      | none => skipToOpenCurly ts fuel

/-- `CssParser::consume_selector` — hash token: id selector; `.`: class
selector via `consume_ident` (panicking on a non-identifier); any other
delimiter: panic; identifier: type selector, a following `:` skipping
ahead to `{`; at-keyword: skip ahead to `{`, unknown selector; anything
else: consume one further token and yield the unknown selector. -/
def consumeSelector (ts : CssTS) (fuel : Nat) :
    Except CssFail (Selector × CssTS) := do
  match ← pNext ts with
  | none => .error (.panicked "should have a token but got None")
  | some (tok, ts) =>
    match tok with
    | .hashToken value => pure (.idSelector (value.drop 1), ts)
    | .delim c =>
      if c = '.' then do
        let (s, ts) ← consumeIdent ts
        pure (.classSelector s, ts)
      else .error (.panicked "unexpected token")
    | .ident id => do
      match ← pPeek ts with
      | some .colon => do
        let ts ← skipToOpenCurly ts fuel
        pure (.typeSelector id, ts)
      | _ => pure (.typeSelector id, ts)
    | .atKeyword _ => do
      let ts ← skipToOpenCurly ts fuel
      pure (.unknownSelector, ts)
    | _ => do
      match ← pNext ts with
      | some (_, ts) => pure (.unknownSelector, ts)
      | none => pure (.unknownSelector, ts)

/-- The loop of `CssParser::consume_qualified_rule` — read selectors
until `{` (keeping the last one), then the declaration block; `None`
at end of input. -/
def consumeQualifiedRule (ts : CssTS) (sel : Selector) (fuel : Nat) :
    Except CssFail (Option QualifiedRule × CssTS) :=
  match fuel with
  | 0 => .error .fuelOut
  | fuel + 1 => do
    match ← pPeek ts with
    | none => pure (none, ts)
    | some .openCurly => do
      match ← pNext ts with
      | some (_, ts) => do
        let (decls, ts) ← consumeListOfDeclarations ts [] fuel
        pure (some ⟨sel, decls⟩, ts)
      | none => do
        let (decls, ts) ← consumeListOfDeclarations ts [] fuel
        pure (some ⟨sel, decls⟩, ts)
    | some _ => do
      let (sel, ts) ← consumeSelector ts fuel
      consumeQualifiedRule ts sel fuel

/-- `CssParser::consume_list_of_rules` — at-keyword rules are parsed and
discarded; otherwise qualified rules are collected until one fails. -/
def consumeListOfRules (ts : CssTS) (acc : List QualifiedRule) (fuel : Nat) :
    Except CssFail (List QualifiedRule × CssTS) :=
  match fuel with
  | 0 => .error .fuelOut
  | fuel + 1 => do
    match ← pPeek ts with
    | none => pure (acc, ts)
    | some (.atKeyword _) => do
      let (_, ts) ← consumeQualifiedRule ts (.typeSelector "") fuel
      consumeListOfRules ts acc fuel
    | some _ => do
      let (rule?, ts) ← consumeQualifiedRule ts (.typeSelector "") fuel
      match rule? with
      | some rule => consumeListOfRules ts (acc ++ [rule]) fuel
      | none => pure (acc, ts)

/-- `CssParser::parse_stylesheet` on a CSS source string. -/
def parseStylesheet (css : String) (fuel : Nat) : Except CssFail StyleSheet := do
  let (rules, _) ← consumeListOfRules (CssTS.new css) [] fuel
  pure ⟨rules⟩

/-! ## HTML tokenizer (`renderer/html/token.rs`)

The tokenizer is a state machine over (state, position, reconsume flag,
token under construction, input, temporary buffer).  Failed `assert!`s,
`panic!`s and out-of-bounds reads are embedded as panics; the inner
`loop` of `next` carries fuel (each iteration either consumes a
character or clears the reconsume flag, so any concrete run needs only
finitely much). -/

/-- `HtmlToken`. -/
inductive HtmlToken where
  | startTag (tag : String) (selfClosing : Bool) (attributes : List Attribute)
  | endTag (tag : String)
  | char (c : Char)
  | eof
deriving DecidableEq, Repr

/-- The tokenizer `State`. -/
inductive HState where
  | data
  | tagOpen
  | endTagOpen
  | tagName
  | beforeAttributeName
  | attributeName
  | afterAttributeName
  | beforeAttributeValue
  | attributeValueDoubleQuoted
  | attributeValueSingleQuoted
  | attributeValueUnquoted
  | afterAttributeValueQuoted
  | selfClosingStartTag
  | scriptData
  | scriptDataLessThanSign
  | scriptDataEndTagOpen
  | scriptDataEndTagName
  | temporaryBuffer
deriving DecidableEq, Repr

/-- `HtmlTokenizer` — the mutable tokenizer state. -/
structure HtmlTS where
  state : HState
  pos : Nat
  reconsume : Bool
  latestToken : Option HtmlToken
  input : List Char
  buf : String
deriving DecidableEq, Repr

/-- `HtmlTokenizer::new`. -/
def HtmlTS.new (html : String) : HtmlTS :=
  ⟨.data, 0, false, none, html.data, ""⟩

/-- `HtmlTokenizer::is_eof` — `pos > input.len()`. -/
def HtmlTS.isEof (ts : HtmlTS) : Bool := ts.pos > ts.input.length

/-- `HtmlTokenizer::reconsume_input` — clear the flag and read
`input[pos - 1]`; with `pos = 0` the index underflows (a panic). -/
def reconsumeInput (ts : HtmlTS) : Except String (Char × HtmlTS) :=
  if ts.pos = 0 then .error "index underflow"
  else
    match ts.input[ts.pos - 1]? with
    | none => .error "index out of bounds"
    | some c => .ok (c, { ts with reconsume := false })

/-- `HtmlTokenizer::consume_next_input` — read `input[pos]` (a panic
when out of bounds) and advance. -/
def consumeNextInput (ts : HtmlTS) : Except String (Char × HtmlTS) :=
  match ts.input[ts.pos]? with
  | none => .error "index out of bounds"
  | some c => .ok (c, { ts with pos := ts.pos + 1 })

/-- `HtmlTokenizer::create_tag` — start an empty StartTag or EndTag. -/
def createTag (ts : HtmlTS) (startTagToken : Bool) : HtmlTS :=
  if startTagToken then { ts with latestToken := some (.startTag "" false []) }
  else { ts with latestToken := some (.endTag "") }

/-- `HtmlTokenizer::append_tag_name` — push a character onto the tag
name of the token under construction (asserts that one exists and is a
tag token). -/
def appendTagName (ts : HtmlTS) (c : Char) : Except String HtmlTS :=
  match ts.latestToken with
  | none => .error "assertion failed: latest token should exist"
  | some (.startTag tag sc attrs) =>
    .ok { ts with latestToken := some (.startTag (tag.push c) sc attrs) }
  | some (.endTag tag) =>
    .ok { ts with latestToken := some (.endTag (tag.push c)) }
  | some _ => .error "latest token should be either StartTag or EndTag"

/-- `HtmlTokenizer::take_latest_token` — hand out the token under
construction and clear it (asserts that one exists). -/
def takeLatestToken (ts : HtmlTS) : Except String (HtmlToken × HtmlTS) :=
  match ts.latestToken with
  | none => .error "assertion failed: latest token should exist"
  | some t => .ok (t, { ts with latestToken := none })

/-- `HtmlTokenizer::start_new_attribute` — push an empty attribute onto
the StartTag under construction. -/
def startNewAttribute (ts : HtmlTS) : Except String HtmlTS :=
  match ts.latestToken with
  | none => .error "assertion failed: latest token should exist"
  | some (.startTag tag sc attrs) =>
    .ok { ts with latestToken := some (.startTag tag sc (attrs ++ [⟨"", ""⟩])) }
  | some _ => .error "latest token should be either StartTag"

/-- `HtmlTokenizer::append_attribute` — push a character onto the name
or value of the last attribute of the StartTag under construction. -/
def appendAttribute (ts : HtmlTS) (c : Char) (isName : Bool) :
    Except String HtmlTS :=
  match ts.latestToken with
  | none => .error "assertion failed: latest token should exist"
  | some (.startTag tag sc attrs) =>
    match attrs.getLast? with
    | none => .error "assertion failed: attributes should not be empty"
    | some last =>
      let last := if isName then { last with name := last.name.push c }
        else { last with value := last.value.push c }
      .ok { ts with latestToken := some (.startTag tag sc (attrs.dropLast ++ [last])) }
  | some _ => .error "latest token should be either StartTag"

/-- `HtmlTokenizer::set_self_closing_flag`. -/
def setSelfClosingFlag (ts : HtmlTS) : Except String HtmlTS :=
  match ts.latestToken with
  | none => .error "assertion failed: latest token should exist"
  | some (.startTag tag _ attrs) =>
    .ok { ts with latestToken := some (.startTag tag true attrs) }
  | some _ => .error "latest token should be either StartTag"

inductive HtmlFail where
  | panicked (msg : String)
  | fuelOut
deriving DecidableEq, Repr

/-- Lift a panic into the tokenizer's failure type. -/
def liftHtml {α : Type} : Except String α → Except HtmlFail α
  | .ok v => .ok v
  | .error msg => .error (.panicked msg)

/-- The inner `loop` of `<Iterator for HtmlTokenizer>::next`: read one
character (re-dispatching the previous one when the reconsume flag is
set), act on the current state, and either produce a token or continue
with the next character. -/
def htmlNextLoop (ts : HtmlTS) (fuel : Nat) :
    Except HtmlFail (Option (HtmlToken × HtmlTS)) :=
  match fuel with
  | 0 => .error .fuelOut
  | fuel + 1 => do
    let (c, ts) ←
      if ts.reconsume then liftHtml (reconsumeInput ts)
      else liftHtml (consumeNextInput ts)
    match ts.state with
    | .data =>
      if c = '<' then htmlNextLoop { ts with state := .tagOpen } fuel
      else if ts.isEof then pure (some (.eof, ts))
      else pure (some (.char c, ts))
    | .tagOpen =>
      if c = '/' then htmlNextLoop { ts with state := .endTagOpen } fuel
      else if c.isAlpha then
        htmlNextLoop (createTag { ts with reconsume := true, state := .tagName } true) fuel
      else if ts.isEof then pure (some (.eof, ts))
      else htmlNextLoop { ts with reconsume := true, state := .data } fuel
    | .endTagOpen =>
      if ts.isEof then pure (some (.eof, ts))
      else if c.isAlpha then
        htmlNextLoop (createTag { ts with reconsume := true, state := .tagName } false) fuel
      else htmlNextLoop ts fuel
    | .tagName =>
      if c = ' ' then htmlNextLoop { ts with state := .beforeAttributeName } fuel
      else if c = '/' then htmlNextLoop { ts with state := .selfClosingStartTag } fuel
      else if c = '>' then do
        let (t, ts) ← liftHtml (takeLatestToken { ts with state := .data })
        pure (some (t, ts))
      else if c.isUpper then do
        let ts ← liftHtml (appendTagName ts c.toLower)
        htmlNextLoop ts fuel
      else if ts.isEof then pure (some (.eof, ts))
      else do
        let ts ← liftHtml (appendTagName ts c)
        htmlNextLoop ts fuel
    | .beforeAttributeName =>
      if c = '/' ∨ c = '>' ∨ ts.isEof then
        htmlNextLoop { ts with reconsume := true, state := .afterAttributeName } fuel
      else do
        let ts ← liftHtml (startNewAttribute
          { ts with reconsume := true, state := .attributeName })
        htmlNextLoop ts fuel
    | .attributeName =>
      if c = ' ' ∨ c = '/' ∨ c = '>' ∨ ts.isEof then
        htmlNextLoop { ts with reconsume := true, state := .afterAttributeName } fuel
      else if c = '=' then
        htmlNextLoop { ts with state := .beforeAttributeValue } fuel
      else if c.isUpper then do
        let ts ← liftHtml (appendAttribute ts c.toLower true)
        htmlNextLoop ts fuel
      else do
        let ts ← liftHtml (appendAttribute ts c true)
        htmlNextLoop ts fuel
    | .afterAttributeName =>
      if c = ' ' then htmlNextLoop ts fuel
      else if c = '/' then htmlNextLoop { ts with state := .selfClosingStartTag } fuel
      else if c = '=' then htmlNextLoop { ts with state := .beforeAttributeValue } fuel
      else if c = '>' then do
        let (t, ts) ← liftHtml (takeLatestToken { ts with state := .data })
        pure (some (t, ts))
      else if ts.isEof then pure (some (.eof, ts))
      else do
        let ts ← liftHtml (startNewAttribute
          { ts with reconsume := true, state := .attributeName })
        htmlNextLoop ts fuel
    | .beforeAttributeValue =>
      if c = ' ' then htmlNextLoop ts fuel
      else if c = '"' then
        htmlNextLoop { ts with state := .attributeValueDoubleQuoted } fuel
      else if c = '\'' then
        htmlNextLoop { ts with state := .attributeValueSingleQuoted } fuel
      else
        htmlNextLoop { ts with reconsume := true, state := .attributeValueUnquoted } fuel
    | .attributeValueDoubleQuoted =>
      if c = '"' then
        htmlNextLoop { ts with state := .afterAttributeValueQuoted } fuel
      else if ts.isEof then pure (some (.eof, ts))
      else do
        let ts ← liftHtml (appendAttribute ts c false)
        htmlNextLoop ts fuel
    | .attributeValueSingleQuoted =>
      if c = '\'' then
        htmlNextLoop { ts with state := .afterAttributeValueQuoted } fuel
      else if ts.isEof then pure (some (.eof, ts))
      else do
        let ts ← liftHtml (appendAttribute ts c false)
        htmlNextLoop ts fuel
    | .attributeValueUnquoted =>
      if c = ' ' then htmlNextLoop { ts with state := .beforeAttributeName } fuel
      else if c = '>' then do
        let (t, ts) ← liftHtml (takeLatestToken { ts with state := .data })
        pure (some (t, ts))
      else if ts.isEof then pure (some (.eof, ts))
      else do
        let ts ← liftHtml (appendAttribute ts c false)
        htmlNextLoop ts fuel
    | .afterAttributeValueQuoted =>
      if c = ' ' then htmlNextLoop { ts with state := .beforeAttributeName } fuel
      else if c = '/' then htmlNextLoop { ts with state := .selfClosingStartTag } fuel
      else if c = '>' then do
        let (t, ts) ← liftHtml (takeLatestToken { ts with state := .data })
        pure (some (t, ts))
      else if ts.isEof then pure (some (.eof, ts))
      else htmlNextLoop { ts with reconsume := true, state := .beforeAttributeName } fuel
    | .selfClosingStartTag =>
      if c = '>' then do
        let ts ← liftHtml (setSelfClosingFlag ts)
        let (t, ts) ← liftHtml (takeLatestToken { ts with state := .data })
        pure (some (t, ts))
      else if ts.isEof then pure (some (.eof, ts))
      else htmlNextLoop ts fuel
    | .scriptData =>
      if c = '<' then htmlNextLoop { ts with state := .scriptDataLessThanSign } fuel
      else if ts.isEof then pure (some (.eof, ts))
      else pure (some (.char c, ts))
    | .scriptDataLessThanSign =>
      if c = '/' then
        htmlNextLoop { ts with buf := "", state := .scriptDataEndTagOpen } fuel
      else pure (some (.char '<', { ts with reconsume := true, state := .scriptData }))
    | .scriptDataEndTagOpen =>
      if c.isAlpha then
        htmlNextLoop (createTag
          { ts with reconsume := true, state := .scriptDataEndTagName } false) fuel
      else pure (some (.char '<', { ts with reconsume := true, state := .scriptData }))
    | .scriptDataEndTagName =>
      if c = '>' then do
        let (t, ts) ← liftHtml (takeLatestToken { ts with state := .data })
        pure (some (t, ts))
      else if c.isAlpha then do
        let ts ← liftHtml (appendTagName { ts with buf := ts.buf.push c } c.toLower)
        htmlNextLoop ts fuel
      else
        htmlNextLoop
          { ts with state := .temporaryBuffer, buf := ("</" ++ ts.buf).push c } fuel
    | .temporaryBuffer =>
      let ts := { ts with reconsume := true }
      match ts.buf.data with
      | [] => htmlNextLoop { ts with state := .scriptData } fuel
      | c0 :: rest => pure (some (.char c0, { ts with buf := String.mk rest }))

/-- `<Iterator for HtmlTokenizer>::next` — `None` once the position has
reached the end of the input, otherwise the inner loop. -/
def htmlNext (ts : HtmlTS) (fuel : Nat) :
    Except HtmlFail (Option (HtmlToken × HtmlTS)) :=
  if ts.pos ≥ ts.input.length then .ok none
  else htmlNextLoop ts fuel


end Saba

deriving instance DecidableEq for Except

namespace Saba

/-! ## Remaining statement-side helpers and concrete values -/

/-- Whether a runtime value is a `Number`. -/
def isNumber : RuntimeValue → Bool
  | .number _ => true
  | _ => false

/-- Whether every field of a computed style is set. -/
def styleFull (st : ComputedStyle) : Bool :=
  st.backgroundColor.isSome && st.color.isSome && st.display.isSome &&
    st.fontSize.isSome && st.textDecoration.isSome && st.height.isSome &&
    st.width.isSome

/-- Whether the style of a parent handle (when present) is fully set —
true for every parent the builder ever passes down. -/
def parentFull : Option LParent → Bool
  | none => true
  | some p => styleFull p.style

/-- Whether a hit-test result is a node whose rectangle contains the
point. -/
def hitContains (r : Option LTree) (position : Int × Int) : Bool :=
  match r with
  | some (.node d _ _) => containsPoint d position
  | _ => false

/-- All subtree occurrences of a DOM tree (the handle itself, those of
its child subtree and those of its sibling subtree). -/
def domSubtrees : Dom → List Dom
  | .nil => []
  | .node k c s => .node k c s :: (domSubtrees c ++ domSubtrees s)

/-- The occurrences strictly below a DOM node: everything inside its
child subtree (including that child's siblings). -/
def childDescendants : Dom → List Dom
  | .nil => []
  | .node _ c _ => domSubtrees c

/-- A fully defaulted style with the given display and text-decoration
(white background, black color, medium font, zero width and height) —
the style of the unselected elements in the concrete trees below. -/
def styleOf (dt : DisplayType) (td : TextDecoration) : ComputedStyle :=
  ⟨some Color.white, some Color.black, some dt, some FontSize.medium,
    some td, some 0, some 0⟩

/-- A fresh computed style whose font-size is medium (for the text
sizing statements). -/
def mediumStyle : ComputedStyle :=
  { ComputedStyle.new with fontSize := some FontSize.medium }

/-- The scenario of claim C2: an inner frame without bindings whose
outer frame binds `x` to `Number(1)`. -/
def c2env : Environment := [[], [("x", some (.number 1))]]

/-- Concrete DOM for claim C8: `<body><a href="u"><p></p><p></p></a></body>`
(second `<p>`). -/
def c8pp : Dom := .node (.element ⟨.p, []⟩) .nil .nil

/-- First `<p>` child of the `<a>`, with the second as its sibling. -/
def c8p1 : Dom := .node (.element ⟨.p, []⟩) .nil c8pp

/-- The `<a href="u">` element with the two `<p>` children. -/
def c8a : Dom := .node (.element ⟨.a, [⟨"href", "u"⟩]⟩) c8p1 .nil

/-- The `<body>` element containing the `<a>`. -/
def c8body : Dom := .node (.element ⟨.body, []⟩) c8a .nil

/-- The document for claim C8. -/
def c8dom : Dom :=
  .node .document
    (.node (.element ⟨.html, []⟩)
      (.node (.element ⟨.head, []⟩) .nil c8body) .nil) .nil

/-- The layout view built from `c8dom` with an empty stylesheet: the
second `<p>` (layout parent: the `<a>`) carries no recorded parent
link. -/
def c8tree : LTree :=
  .node ⟨.block, c8body, styleOf .block .none, none, ⟨0, 0⟩, ⟨590, 0⟩⟩
    (.node ⟨.inline, c8a, styleOf .inline .underline,
        some (.element ⟨.body, []⟩), ⟨0, 0⟩, ⟨0, 0⟩⟩
      (.node ⟨.block, c8p1, styleOf .block .underline,
          some (.element ⟨.a, [⟨"href", "u"⟩]⟩), ⟨0, 0⟩, ⟨0, 0⟩⟩
        .nil
        (.node ⟨.block, c8pp, styleOf .block .none, none, ⟨0, 0⟩, ⟨0, 0⟩⟩
          .nil .nil))
      .nil)
    .nil

/-- Concrete `<body>` element for claim C1. -/
def c1body : Dom := .node (.element ⟨.body, []⟩) .nil .nil

/-- The `<html>` element containing head and body. -/
def c1html : Dom :=
  .node (.element ⟨.html, []⟩)
    (.node (.element ⟨.head, []⟩) .nil c1body) .nil

/-- The document for claim C1. -/
def c1dom : Dom := .node .document c1html .nil

/-- The stylesheet `html { display: none; }` of claim C1. -/
def c1sheet : StyleSheet :=
  ⟨[⟨.typeSelector "html", [⟨"display", .ident "none"⟩]⟩]⟩

/-- The layout view built from `c1dom` with `c1sheet`: the `<body>`
subtree is laid out although `<html>` has final display `none`. -/
def c1tree : LTree :=
  .node ⟨.block, c1body, styleOf .block .none, none, ⟨0, 0⟩, ⟨590, 0⟩⟩
    .nil .nil

/-- A one-node layout tree with a 10 × 10 rectangle at the origin (the
hit-testing witness). -/
def c9tree : LTree :=
  .node ⟨.block, c1body, ComputedStyle.new, none, ⟨0, 0⟩, ⟨10, 10⟩⟩ .nil .nil

/-! ## Claim C4 — `+` and `-` on runtime values -/

/-- C4: the claim says `a - b` is `Number(x - y)` (integer subtraction)
whenever both operands are Numbers; at `a = Number(0)`, `b = Number(1)`
the code wraps around `2 ^ 64` instead of producing the integer `-1`,
so the claim fails. -/
theorem c4_counterexample :
    RuntimeValue.sub (.number 0) (.number 1) = .number (2 ^ 64 - 1) ∧
    ((2 ^ 64 - 1 : Int) ≠ (0 : Int) - 1) := by
  exact ⟨by decide, by decide⟩

/-- C4 (amended): on two Numbers, `+` is addition and `-` subtraction
modulo `2 ^ 64` (exact whenever no wrap-around occurs, in particular
`x - y` whenever `y ≤ x`); when either operand is not a Number, `+`
concatenates the canonical string forms and `-` yields `Number(0)`. -/
theorem c4_amended :
    (∀ x y : Nat,
      RuntimeValue.add (.number x) (.number y) = .number ((x + y) % 2 ^ 64) ∧
      RuntimeValue.sub (.number x) (.number y) =
        .number (((((x : Int) - (y : Int)) % (2 ^ 64))).toNat) ∧
      (x + y < 2 ^ 64 →
        RuntimeValue.add (.number x) (.number y) = .number (x + y)) ∧
      (y ≤ x → x < 2 ^ 64 →
        RuntimeValue.sub (.number x) (.number y) = .number (x - y))) ∧
    (∀ a b : RuntimeValue, (isNumber a && isNumber b) = false →
      RuntimeValue.add a b = .stringLiteral (a.toStr ++ b.toStr) ∧
      RuntimeValue.sub a b = .number 0) := by
  constructor
  · intro x y
    refine ⟨rfl, rfl, ?_, ?_⟩
    · intro h
      show RuntimeValue.number (u64Add x y) = _
      unfold u64Add
      rw [Nat.mod_eq_of_lt h]
    · intro hyx hx
      show RuntimeValue.number (u64Sub x y) = _
      unfold u64Sub
      congr 1
      have hlt : ((x - y : Nat) : Int) < 2 ^ 64 := by
        have h2 := lt_of_le_of_lt (Nat.sub_le x y) hx
        exact_mod_cast h2
      rw [← Nat.cast_sub hyx, Int.emod_eq_of_lt (by positivity) hlt]
      simp
  · intro a b h
    cases a <;> cases b <;>
      simp_all [isNumber, RuntimeValue.add, RuntimeValue.sub]

/-- C4 witness: the amended statement at concrete inputs. -/
theorem c4_amended_witness :
    RuntimeValue.add (.number 1) (.number 2) = .number 3 ∧
    RuntimeValue.sub (.number 5) (.number 2) = .number 3 ∧
    RuntimeValue.add (.number 1) (.stringLiteral "a") = .stringLiteral "1a" ∧
    RuntimeValue.sub (.stringLiteral "a") (.number 1) = .number 0 := by
  refine ⟨(c4_amended.1 1 2).2.2.1 (by norm_num),
    (c4_amended.1 5 2).2.2.2 (by norm_num) (by norm_num), ?_, ?_⟩
  · exact ((c4_amended.2 (.number 1) (.stringLiteral "a") (by decide)).1).trans
      (by decide)
  · exact (c4_amended.2 (.stringLiteral "a") (.number 1) (by decide)).2

/-! ## Claim C5 — text sizing in `compute_size` -/

/-- C5: the claim says the text width is `CHAR_WIDTH * ratio *
(codepoint count of t)`; the code uses `t.len()`, the UTF-8 byte length.
At `t = "あ"` (one codepoint, three bytes) the code computes width 24
while the claim demands `8 * 1 * 1 = 8`. -/
theorem c5_counterexample :
    computeSize
        ⟨.text, .node (.text "あ") .nil .nil, mediumStyle, none, ⟨0, 0⟩, ⟨0, 0⟩⟩
        .nil ⟨0, 0⟩ =
      .ok ⟨.text, .node (.text "あ") .nil .nil, mediumStyle, none,
        ⟨0, 0⟩, ⟨24, 20⟩⟩ ∧
    ("あ" : String).length = 1 ∧
    charWidth * fontScale .medium * ((("あ" : String).length : Nat) : Int) = 8 ∧
    ((24 : Int) ≠ 8) := by
  exact ⟨by decide, by decide, by decide, by decide⟩

/-- C5 (amended): for a Text layout object with text `t` and font ratio
`r`, `compute_size` sets width `CHAR_WIDTH * r * (UTF-8 byte length of
t)` when that does not exceed `CONTENT_AREA_WIDTH` and height
`CHAR_HEIGHT_WITH_PADDING * r`; otherwise width `CONTENT_AREA_WIDTH`
and height `CHAR_HEIGHT_WITH_PADDING * r * row_count` with `row_count =
ceil(width / CONTENT_AREA_WIDTH)`. -/
theorem c5_amended : ∀ (d : LData) (children : LTree)
    (parentSize : LayoutSize) (t : String) (fs : FontSize),
    d.kind = .text → d.nodeKind = .text t → d.style.fontSize = some fs →
    computeSize d children parentSize = .ok { d with size :=
      (if charWidth * fontScale fs * (t.utf8ByteSize : Int) > contentAreaWidth
        then ⟨contentAreaWidth, charHeightWithPadding * fontScale fs *
          ((charWidth * fontScale fs * (t.utf8ByteSize : Int) +
            contentAreaWidth - 1) / contentAreaWidth)⟩
        else ⟨charWidth * fontScale fs * (t.utf8ByteSize : Int),
          charHeightWithPadding * fontScale fs⟩ : LayoutSize) } := by
  intro d children parentSize t fs hk hn hf
  unfold computeSize
  rw [hk, hn, hf]
  simp only [cssGet, Bind.bind, Except.bind]
  have h590 : contentAreaWidth = 590 := by decide
  rw [h590]
  split_ifs with h1 h2
  · have he : charWidth * fontScale fs * (t.utf8ByteSize : Int) / 590 =
        (charWidth * fontScale fs * (t.utf8ByteSize : Int) + 590 - 1) / 590 := by
      omega
    rw [he]
    rfl
  · have he : charWidth * fontScale fs * (t.utf8ByteSize : Int) / 590 + 1 =
        (charWidth * fontScale fs * (t.utf8ByteSize : Int) + 590 - 1) / 590 := by
      omega
    rw [he]
    rfl
  · rfl

/-- C5 witness: the amended statement at a concrete one-line text. -/
theorem c5_amended_witness :
    computeSize
        ⟨.text, .node (.text "abc") .nil .nil, mediumStyle, none, ⟨0, 0⟩, ⟨0, 0⟩⟩
        .nil ⟨0, 0⟩ =
      .ok ⟨.text, .node (.text "abc") .nil .nil, mediumStyle, none,
        ⟨0, 0⟩, ⟨24, 20⟩⟩ := by
  have h := c5_amended
    ⟨.text, .node (.text "abc") .nil .nil, mediumStyle, none, ⟨0, 0⟩, ⟨0, 0⟩⟩
    .nil ⟨0, 0⟩ "abc" .medium rfl rfl rfl
  exact h.trans (by decide)

/-! ## Claim C6 — `compute_position` -/

/-- C6: `compute_position` as the claim states it — Block self or Block
previous sibling stack below the previous sibling (parent point when no
previous data), Inline after Inline continues the row, and every other
case lands on the parent point. -/
theorem c6_theorem : ∀ (kind : LayoutObjectKind) (parentPoint : LayoutPoint)
    (prevKind : LayoutObjectKind) (prevPoint : Option LayoutPoint)
    (prevSize : Option LayoutSize),
    ((kind = .block ∨ prevKind = .block) →
      (∀ pp ps, prevPoint = some pp → prevSize = some ps →
        computePosition kind parentPoint prevKind prevPoint prevSize =
          ⟨parentPoint.x, pp.y + ps.height⟩) ∧
      (prevPoint = none ∨ prevSize = none →
        computePosition kind parentPoint prevKind prevPoint prevSize =
          ⟨parentPoint.x, parentPoint.y⟩)) ∧
    (kind = .inline → prevKind = .inline →
      (∀ pp ps, prevPoint = some pp → prevSize = some ps →
        computePosition kind parentPoint prevKind prevPoint prevSize =
          ⟨pp.x + ps.width, pp.y⟩) ∧
      (prevPoint = none ∨ prevSize = none →
        computePosition kind parentPoint prevKind prevPoint prevSize =
          ⟨parentPoint.x, parentPoint.y⟩)) ∧
    (¬(kind = .block ∨ prevKind = .block) →
      ¬(kind = .inline ∧ prevKind = .inline) →
      computePosition kind parentPoint prevKind prevPoint prevSize =
        ⟨parentPoint.x, parentPoint.y⟩) := by
  intro kind parentPoint prevKind prevPoint prevSize
  cases kind <;> cases prevKind <;> cases prevPoint <;> cases prevSize <;>
    simp [computePosition]

/-- C6 witness: the Block case at concrete inputs. -/
theorem c6_witness :
    computePosition .block ⟨1, 2⟩ .inline (some ⟨3, 4⟩) (some ⟨5, 6⟩) =
      ⟨1, 10⟩ := by
  have h := ((c6_theorem .block ⟨1, 2⟩ .inline (some ⟨3, 4⟩)
    (some ⟨5, 6⟩)).1 (Or.inl rfl)).1 ⟨3, 4⟩ ⟨5, 6⟩ rfl rfl
  exact h.trans (by decide)

/-! ## Claim C7 — `ComputedStyle::defaulting` -/

/-- C7: `defaulting` fills each absent field as the claim states.  With
a parent style (the inherited properties set, as they are on every style
the builder passes down): background-color inherits when the parent's
is non-white, else white; color inherits when the parent's is
non-black, else black; font-size inherits when the parent's is
non-medium, else the element-kind initial; text-decoration inherits
when the parent's is non-none, else the element-kind initial (underline
for `<a>`); display always gets the element-kind initial; width and
height default to zero; fields already set by cascading are kept.
Without a parent, every absent field gets its initial value. -/
theorem c7_theorem : ∀ (st : ComputedStyle) (nk : NodeKind)
    (pbg pco : Color) (pfs : FontSize) (ptd : TextDecoration)
    (pd : Option DisplayType) (ph pw : Option Int),
    (ComputedStyle.defaulting st nk none = .ok
      { backgroundColor := some (st.backgroundColor.getD Color.white)
        color := some (st.color.getD Color.black)
        display := some (st.display.getD (DisplayType.defaultFor nk))
        fontSize := some (st.fontSize.getD (FontSize.defaultFor nk))
        textDecoration := some
          (st.textDecoration.getD (TextDecoration.defaultFor nk))
        height := some (st.height.getD 0)
        width := some (st.width.getD 0) }) ∧
    (ComputedStyle.defaulting st nk
        (some ⟨some pbg, some pco, pd, some pfs, some ptd, ph, pw⟩) = .ok
      { backgroundColor := some (match st.backgroundColor with
          | some v => v
          | none => if pbg = Color.white then Color.white else pbg)
        color := some (match st.color with
          | some v => v
          | none => if pco = Color.black then Color.black else pco)
        display := some (st.display.getD (DisplayType.defaultFor nk))
        fontSize := some (match st.fontSize with
          | some v => v
          | none => if pfs = FontSize.medium then FontSize.defaultFor nk
            else pfs)
        textDecoration := some (match st.textDecoration with
          | some v => v
          | none => if ptd = TextDecoration.none then
              TextDecoration.defaultFor nk
            else ptd)
        height := some (st.height.getD 0)
        width := some (st.width.getD 0) }) := by
  intro st nk pbg pco pfs ptd pd ph pw
  constructor
  · rfl
  · rcases st with ⟨bg, co, di, fs, td, he, wi⟩
    cases bg <;> cases co <;> cases fs <;> cases td <;>
      simp [ComputedStyle.defaulting, inheritStep, cssGet, Bind.bind,
        Except.bind, pure, Except.pure] <;>
      split_ifs <;> simp_all

/-! ## Claim C2 — assignment to an identifier -/

/-- Helper: a frame that does not hold the name has no matching
entry. -/
theorem find_eq_none_of_not_holds (vars : VariableMap) (name : String)
    (h : holdsName vars name = false) :
    vars.find? (fun v => v.1 = name) = none := by
  apply List.find?_eq_none.mpr
  intro q hq
  simp only [holdsName, List.any_eq_false, decide_eq_true_eq] at h
  simpa using h q hq

/-- Helper: `update_variable`'s loop leaves a frame that does not hold
the name unchanged. -/
theorem updateVars_of_not_holds (vars : VariableMap) (name : String)
    (value : Option RuntimeValue) (h : holdsName vars name = false) :
    updateVars vars name value = vars := by
  induction vars with
  | nil => rfl
  | cons p rest ih =>
    obtain ⟨n, v⟩ := p
    simp only [holdsName, List.any_cons, Bool.or_eq_false_iff,
      decide_eq_false_iff_not] at h
    obtain ⟨h1, h2⟩ := h
    simp only [updateVars, if_neg h1]
    rw [ih (by simpa [holdsName, List.any_eq_false] using h2)]

/-- Helper: after `update_variable`'s loop on a frame that holds the
name (without duplicate names), the first matching entry carries the new
value. -/
theorem find_updateVars (vars : VariableMap) (name : String)
    (value : Option RuntimeValue) (h : holdsName vars name = true)
    (hnd : (vars.map Prod.fst).Nodup) :
    (updateVars vars name value).find? (fun v => v.1 = name) =
      some (name, value) := by
  induction vars with
  | nil => simp [holdsName] at h
  | cons p rest ih =>
    obtain ⟨n, v⟩ := p
    by_cases hn : n = name
    · subst hn
      rw [show updateVars ((n, v) :: rest) n value = rest ++ [(n, value)] from
        by simp [updateVars]]
      rw [List.find?_append]
      have hrest : rest.find? (fun q => q.1 = n) = none := by
        apply List.find?_eq_none.mpr
        intro q hq
        have hmem : q.1 ∈ rest.map Prod.fst := List.mem_map_of_mem _ hq
        intro hqe
        simp only [decide_eq_true_eq] at hqe
        rw [hqe] at hmem
        exact (List.nodup_cons.mp hnd).1 hmem
      rw [hrest]
      simp
    · simp only [updateVars, if_neg hn]
      rw [List.find?_cons_of_neg _ (by simpa using hn)]
      have hh : holdsName rest name = true := by
        simp only [holdsName, List.any_cons, Bool.or_eq_true,
          decide_eq_true_eq] at h
        rcases h with h | h
        · exact absurd h hn
        · simpa [holdsName] using h
      exact ih hh (List.nodup_cons.mp hnd).2

/-- C2: the claim says assignment updates the nearest enclosing frame
that holds the name; in `c2env` the inner frame is empty and the outer
frame binds `x` to `Number(1)`, yet `update_variable` touches only the
frame it is called on, so the assignment is lost and a later read still
sees `Number(1)`. -/
theorem c2_counterexample :
    evalAssignIdentifier c2env "x" (some (.number 2)) = c2env ∧
    getVariable (evalAssignIdentifier c2env "x" (some (.number 2))) "x" =
      some (.number 1) := by
  exact ⟨by decide, by decide⟩

/-- C2 (amended): assignment with an Identifier left-hand side updates
the innermost frame only: the frame's first entry for the name is
removed and `(name, value)` appended, so a later read in a frame without
duplicate names sees the new value; when the innermost frame does not
hold the name the whole environment — outer frames included — is
unchanged, so an outer binding of the name keeps its old value. -/
theorem c2_amended : ∀ (vars : VariableMap) (outer : Environment)
    (name : String) (value : Option RuntimeValue),
    (evalAssignIdentifier (vars :: outer) name value =
      updateVars vars name value :: outer) ∧
    (holdsName vars name = false →
      evalAssignIdentifier (vars :: outer) name value = vars :: outer) ∧
    (holdsName vars name = true → (vars.map Prod.fst).Nodup →
      getVariable (evalAssignIdentifier (vars :: outer) name value) name =
        value) := by
  intro vars outer name value
  refine ⟨rfl, ?_, ?_⟩
  · intro h
    have h1 : evalAssignIdentifier (vars :: outer) name value =
        updateVars vars name value :: outer := rfl
    rw [h1, updateVars_of_not_holds vars name value h]
  · intro h hnd
    show getVariable (updateVars vars name value :: outer) name = value
    unfold getVariable
    rw [find_updateVars vars name value h hnd]

/-- C2 witness: the amended statement at concrete environments — an
assignment to a name held only by the outer frame is a no-op, and an
assignment to a name held by the innermost frame is visible to a later
read. -/
theorem c2_amended_witness :
    (evalAssignIdentifier [[("y", none)], [("x", some (.number 1))]] "x"
        (some (.number 2)) = [[("y", none)], [("x", some (.number 1))]]) ∧
    getVariable (evalAssignIdentifier [[("x", some (.number 1))]] "x"
        (some (.number 2))) "x" = some (.number 2) := by
  constructor
  · exact (c2_amended [("y", none)] [[("x", some (.number 1))]] "x"
      (some (.number 2))).2.1 (by decide)
  · exact (c2_amended [("x", some (.number 1))] [] "x"
      (some (.number 2))).2.2 (by decide) (by decide)

/-! ## Claim C10 — `var` without initializer shadows outer bindings -/

/-- C10: a name declared by `var` without initializer in a frame that
did not hold it stores `None`; looking the name up then yields the
stored `None`, hence the Identifier arm produces `StringLiteral(name)` —
the same result as for a completely unbound identifier — regardless of
any outer-frame binding: the lookup stops at the first frame mentioning
the name and never consults the outer chain. -/
theorem c10_theorem : ∀ (vars : VariableMap) (outer : Environment)
    (name : String),
    holdsName vars name = false →
    getVariable (evalVarDeclaratorNoInit (vars :: outer) name) name = none ∧
    evalIdentifier (evalVarDeclaratorNoInit (vars :: outer) name) name =
      some (.stringLiteral name) ∧
    evalIdentifier ([] : Environment) name = some (.stringLiteral name) := by
  intro vars outer name h
  have hget : getVariable (evalVarDeclaratorNoInit (vars :: outer) name)
      name = none := by
    show getVariable ((vars ++ [(name, none)]) :: outer) name = none
    unfold getVariable
    rw [List.find?_append, find_eq_none_of_not_holds vars name h]
    simp
  refine ⟨hget, ?_, rfl⟩
  unfold evalIdentifier
  rw [hget]

/-- C10 witness: `var a;` in an inner frame whose outer frame binds `a`
to `Number(7)` — reading `a` yields `StringLiteral("a")`. -/
theorem c10_witness :
    evalIdentifier (evalVarDeclaratorNoInit [[], [("a", some (.number 7))]]
      "a") "a" = some (.stringLiteral "a") := by
  exact (c10_theorem [] [[("a", some (.number 7))]] "a" (by decide)).2.1

/-! ## Claim C3 — totality of the tokenizers and parsers -/

/-- Helper: the `while peek != Some(OpenCurly) { next() }` skip loop of
`consume_selector` spins forever once the tokenizer is exhausted —
`peek` never becomes `Some(OpenCurly)` and `next` makes no progress, so
every fuel runs out. -/
theorem skipToOpenCurly_spins (ts : CssTS) (h : pNext ts = .ok none) :
    ∀ fuel, skipToOpenCurly ts fuel = .error .fuelOut := by
  intro fuel
  induction fuel with
  | zero => rfl
  | succ fuel ih =>
    have hp : pPeek ts = .ok none := by
      unfold pPeek
      show (do
        let r ← cssNext ts
        pure (r.map (·.1))) = Except.ok none
      rw [show cssNext ts = Except.ok none from h]
      rfl
    unfold skipToOpenCurly
    rw [show pPeek ts = Except.ok none from hp]
    show (do
      match ← pNext ts with
      | some (_, ts) => skipToOpenCurly ts fuel
      | none => skipToOpenCurly ts fuel) = Except.error CssFail.fuelOut
    rw [show pNext ts = Except.ok none from h]
    exact ih

/-- C3: the claim says the tokenizers and parsers never fail observably;
the CSS tokenizer panics on an input ending inside an identifier
(`"p"`) and on an unsupported character (`"*"`), the CSS parser panics
on a declaration whose value is missing, and the HTML tokenizer panics
on a lone `"<"` at the end of the input. -/
theorem c3_counterexample :
    cssNext (CssTS.new "p") = .error (.panicked "index out of bounds") ∧
    cssNext (CssTS.new "*") =
      .error (.panicked "char is not supported yet") ∧
    parseStylesheet "p\x7bcolor:" 100 =
      .error (.panicked "should have a token in consume component value") ∧
    htmlNext (HtmlTS.new "<") 10 =
      .error (.panicked "index out of bounds") := by
  exact ⟨by decide, by decide, by decide, by decide⟩

/-- C3 (amended): the tokenizers and parsers are not total — they can
panic and diverge on malformed input: the skip loop of
`consume_selector` runs forever (every fuel is exhausted) once the
tokenizer is exhausted, in particular on a selector list that ends
before any `{`; the identifier loop of the CSS tokenizer panics when
the identifier reaches the end of the input; and the tokenizer panics
on any unsupported character such as `*`. -/
theorem c3_amended :
    (∀ ts : CssTS, pNext ts = .ok none → ∀ fuel,
      skipToOpenCurly ts fuel = .error .fuelOut) ∧
    (∀ fuel, consumeSelector (CssTS.new "@abc ") fuel =
      .error .fuelOut) ∧
    (∀ (fuel : Nat) (ts : CssTS) (acc : String),
      ts.input.length ≤ ts.pos + 1 →
      consumeIdentLoopF (fuel + 1) ts acc =
        .error (.panicked "index out of bounds")) ∧
    (∀ (fuel : Nat) (ts : CssTS), ts.input[ts.pos]? = some ('*') →
      cssNextF (fuel + 1) ts =
        .error (.panicked "char is not supported yet")) := by
  refine ⟨skipToOpenCurly_spins, ?_, ?_, ?_⟩
  · intro fuel
    unfold consumeSelector
    rw [show pNext (CssTS.new "@abc ") =
      .ok (some (.atKeyword "abc", ⟨4, "@abc ".data⟩)) from by decide]
    show (do
      let ts ← skipToOpenCurly (⟨4, "@abc ".data⟩ : CssTS) fuel
      pure (Selector.unknownSelector, ts)) = Except.error CssFail.fuelOut
    rw [skipToOpenCurly_spins ⟨4, "@abc ".data⟩ (by decide) fuel]
    rfl
  · intro fuel ts acc h
    unfold consumeIdentLoopF
    rw [show ts.input[ts.pos + 1]? = none from List.getElem?_eq_none h]
  · intro fuel ts h
    unfold cssNextF
    rw [h]
    rfl

/-- C3 witness: the amended statement at concrete inputs — the skip loop
and the selector parse exhaust any fuel at end of input, the identifier
loop panics at the end of the input, and `*` panics. -/
theorem c3_amended_witness :
    skipToOpenCurly (CssTS.new "") 5 = .error .fuelOut ∧
    consumeSelector (CssTS.new "@abc ") 7 = .error .fuelOut ∧
    consumeIdentLoopF 3 ⟨0, ['p']⟩ "p" =
      .error (.panicked "index out of bounds") ∧
    cssNextF 1 ⟨0, ['*']⟩ =
      .error (.panicked "char is not supported yet") := by
  refine ⟨c3_amended.1 (CssTS.new "") (by decide) 5, c3_amended.2.1 7,
    c3_amended.2.2.1 2 ⟨0, ['p']⟩ "p" (by decide),
    c3_amended.2.2.2 0 ⟨0, ['*']⟩ (by decide)⟩

/-! ## Claim C9 — hit-testing completeness -/

/-- Helper (soundness): whenever the hit test returns a node, the
point lies inside that node's rectangle. -/
theorem findNode_sound (pos : Int × Int) : ∀ (t : LTree) (r : LTree),
    findNodeByPositionInternal t pos = some r →
    hitContains (some r) pos = true := by
  intro t
  induction t with
  | nil => intro r h; simp [findNodeByPositionInternal] at h
  | node d c s ihc ihs =>
    intro r h
    cases hc : findNodeByPositionInternal c pos with
    | some rc =>
      simp only [findNodeByPositionInternal, hc] at h
      injection h with h2
      rw [← h2]
      exact ihc rc hc
    | none =>
      cases hs : findNodeByPositionInternal s pos with
      | some rs =>
        simp only [findNodeByPositionInternal, hc, hs] at h
        injection h with h2
        rw [← h2]
        exact ihs rs hs
      | none =>
        simp only [findNodeByPositionInternal, hc, hs] at h
        by_cases hcond : (d.point.x ≤ pos.1 ∧
            pos.1 ≤ d.point.x + d.size.width ∧ d.point.y ≤ pos.2 ∧
            pos.2 ≤ d.point.y + d.size.height)
        · rw [if_pos hcond] at h
          injection h with h2
          rw [← h2]
          simp only [hitContains, containsPoint]
          exact decide_eq_true_eq.mpr hcond
        · rw [if_neg hcond] at h
          exact Option.noConfusion h

/-- Helper (no miss): when the hit test returns nothing, no node's
rectangle contains the point. -/
theorem findNode_none (pos : Int × Int) : ∀ t : LTree,
    findNodeByPositionInternal t pos = none →
    (nodesData t).any (fun d => containsPoint d pos) = false := by
  intro t
  induction t with
  | nil => intro h; rfl
  | node d c s ihc ihs =>
    intro h
    cases hc : findNodeByPositionInternal c pos with
    | some rc =>
      simp only [findNodeByPositionInternal, hc] at h
      exact Option.noConfusion h
    | none =>
      cases hs : findNodeByPositionInternal s pos with
      | some rs =>
        simp only [findNodeByPositionInternal, hc, hs] at h
        exact Option.noConfusion h
      | none =>
        simp only [findNodeByPositionInternal, hc, hs] at h
        by_cases hcond : (d.point.x ≤ pos.1 ∧
            pos.1 ≤ d.point.x + d.size.width ∧ d.point.y ≤ pos.2 ∧
            pos.2 ≤ d.point.y + d.size.height)
        · rw [if_pos hcond] at h
          exact Option.noConfusion h
        · simp only [nodesData, List.any_cons, List.any_append,
            Bool.or_eq_false_iff]
          refine ⟨?_, ihc hc, ihs hs⟩
          simp only [containsPoint, decide_eq_false_iff_not]
          exact hcond

/-- C9: for every layout tree and every point inside at least one
node's inclusive rectangle, `find_node_by_position` returns a node, and
the returned node's rectangle contains the point. -/
theorem c9_theorem : ∀ (t : LTree) (pos : Int × Int),
    (nodesData t).any (fun d => containsPoint d pos) = true →
    hitContains (findNodeByPositionInternal t pos) pos = true := by
  intro t pos h
  cases hf : findNodeByPositionInternal t pos with
  | some r => exact findNode_sound pos t r hf
  | none =>
    rw [findNode_none pos t hf] at h
    cases h

/-- C9 witness: the point `(3, 4)` inside the `10 × 10` rectangle of the
one-node tree `c9tree` is found, and the found rectangle contains it. -/
theorem c9_witness :
    hitContains (findNodeByPositionInternal c9tree (3, 4)) (3, 4) = true := by
  exact c9_theorem c9tree (3, 4) (by decide)

/-! ## Shared lemmas on the layout-tree builder -/

/-- Helper: a lifted computation succeeds exactly when the underlying
one does. -/
theorem liftBuild_ok {α : Type} (e : Except String α) (v : α)
    (h : liftBuild e = .ok v) : e = .ok v := by
  cases e with
  | ok w => cases h; rfl
  | error msg => cases h

/-- Helper: the visible occurrences of a sibling chain are visible from
the node in front of it. -/
theorem vis_sib (sheet : StyleSheet) (k : NodeKind) (c s : Dom) :
    ∀ x ∈ visibleDoms sheet s, x ∈ visibleDoms sheet (.node k c s) := by
  intro x hx
  unfold visibleDoms
  by_cases hd : finalDisplay sheet k = .displayNone
  · rw [if_pos hd]
    exact hx
  · rw [if_neg hd]
    exact List.mem_cons_of_mem _ (List.mem_append_right _ hx)

/-- Helper: every visible occurrence has a non-`none` final display. -/
theorem visibleDoms_display (sheet : StyleSheet) : ∀ (d : Dom)
    (x : Dom), x ∈ visibleDoms sheet d → ∀ k c s, x = .node k c s →
    finalDisplay sheet k ≠ .displayNone := by
  intro d
  induction d with
  | nil => intro x hx; cases hx
  | node kd cd sd ihc ihs =>
    intro x hx k c s hxe
    unfold visibleDoms at hx
    by_cases hfd : finalDisplay sheet kd = .displayNone
    · rw [if_pos hfd] at hx
      exact ihs x hx k c s hxe
    · rw [if_neg hfd] at hx
      rcases List.mem_cons.mp hx with h1 | h1
      · rw [h1] at hxe
        injection hxe with hk
        rw [← hk]
        exact hfd
      · rcases List.mem_append.mp h1 with h2 | h2
        · exact ihc x h2 k c s hxe
        · exact ihs x h2 k c s hxe

/-- Helper: a successful `defaulting` sets the display to the cascaded
display when present and to the element-kind initial otherwise —
display is never inherited. -/
theorem defaulting_display (st : ComputedStyle) (nk : NodeKind)
    (pso : Option ComputedStyle) (st2 : ComputedStyle)
    (h : ComputedStyle.defaulting st nk pso = .ok st2) :
    st2.display = some (st.display.getD (DisplayType.defaultFor nk)) := by
  cases pso with
  | none =>
    simp only [ComputedStyle.defaulting, Bind.bind, Except.bind, pure,
      Except.pure] at h
    injection h with h2
    rw [← h2]
  | some ps =>
    simp only [ComputedStyle.defaulting, Bind.bind, Except.bind] at h
    cases hbg : inheritStep st.backgroundColor ps.backgroundColor
        Color.white "background_color" with
    | error e => rw [hbg] at h; cases h
    | ok bg =>
      rw [hbg] at h
      simp only at h
      cases hco : inheritStep st.color ps.color Color.black "color" with
      | error e => rw [hco] at h; cases h
      | ok co =>
        rw [hco] at h
        simp only at h
        cases hfs : inheritStep st.fontSize ps.fontSize FontSize.medium
            "font_size" with
        | error e => rw [hfs] at h; cases h
        | ok fs =>
          rw [hfs] at h
          simp only at h
          cases htd : inheritStep st.textDecoration ps.textDecoration
              TextDecoration.none "text_decoration" with
          | error e => rw [htd] at h; cases h
          | ok td =>
            rw [htd] at h
            simp only [pure, Except.pure] at h
            injection h with h2
            rw [← h2]

/-- Helper: when `create_layout_object` produces an object, the object
points back to the DOM node handed in, its weak parent link records the
parent argument's node kind, its point and size are `(0, 0)`, its style
is the cascaded-then-defaulted one, and the node's final display is not
`none`. -/
theorem createLayoutObject_ok_some (k : NodeKind) (c s : Dom)
    (po : Option LParent) (sheet : StyleSheet) (data : LData)
    (h : createLayoutObject (.node k c s) po sheet = .ok (some data)) :
    data.dom = .node k c s ∧ data.parentKind = po.map (·.nodeKind) ∧
    data.point = ⟨0, 0⟩ ∧ data.size = ⟨0, 0⟩ ∧
    finalDisplay sheet k ≠ .displayNone := by
  simp only [createLayoutObject] at h
  rw [show (List.foldl (fun st rule =>
      if isNodeSelected k rule.selector = true then
        cascadingStyle st rule.declarations
      else st) ComputedStyle.new sheet.rules) = cascadedStyle sheet k
    from rfl] at h
  cases hd : ComputedStyle.defaulting (cascadedStyle sheet k) k
      (po.map (·.style)) with
  | error e =>
    rw [hd] at h
    simp only [Bind.bind, Except.bind] at h
    cases h
  | ok st2 =>
    rw [hd] at h
    simp only [Bind.bind, Except.bind] at h
    have hdisp := defaulting_display (cascadedStyle sheet k) k
      (po.map (·.style)) st2 hd
    rw [show cssGet st2.display "display" =
      .ok ((cascadedStyle sheet k).display.getD (DisplayType.defaultFor k))
      from by rw [hdisp]; rfl] at h
    simp only [Bind.bind, Except.bind] at h
    by_cases hfd : (cascadedStyle sheet k).display.getD
        (DisplayType.defaultFor k) = DisplayType.displayNone
    · rw [if_pos hfd] at h
      simp only [pure, Except.pure] at h
      injection h with h2
      cases h2
    · rw [if_neg hfd] at h
      cases hk : updateKind k ((cascadedStyle sheet k).display.getD
          (DisplayType.defaultFor k)) with
      | error e =>
        rw [hk] at h
        simp only [Bind.bind, Except.bind] at h
        cases h
      | ok kind =>
        rw [hk] at h
        simp only [Bind.bind, Except.bind, pure, Except.pure] at h
        injection h with h2
        injection h2 with h3
        rw [← h3]
        exact ⟨rfl, rfl, rfl, rfl, hfd⟩

/-- Helper: combined invariant of the layout-tree builder — every tree
it produces records parent links matching the construction (the head of
a chain carries the creator's DOM kind, every later sibling carries
`none`) and references only DOM occurrences visible under the
stylesheet. -/
theorem buildF_invariant : ∀ fuel : Nat,
    (∀ (d : Dom) (po : Option LParent) (sheet : StyleSheet) (t : LTree),
      buildF fuel d po sheet = .ok t →
      recParentOk (po.map (·.nodeKind)) t = true ∧
      ∀ x ∈ listDoms t, x ∈ visibleDoms sheet d) ∧
    (∀ (d : Dom) (po : Option LParent) (sheet : StyleSheet) (t : LTree),
      retryF fuel d po sheet = .ok t →
      recParentOk (po.map (·.nodeKind)) t = true ∧
      ∀ x ∈ listDoms t, x ∈ visibleDoms sheet d) := by
  intro fuel
  induction fuel with
  | zero =>
    constructor <;> intro d po sheet t h <;>
      simp only [buildF, retryF] at h <;>
      exact Except.noConfusion h
  | succ fuel ih =>
    obtain ⟨ihb, ihr⟩ := ih
    constructor
    · intro d po sheet t h
      cases d with
      | nil =>
        simp only [buildF] at h
        injection h with h2
        subst h2
        exact ⟨rfl, by intro x hx; cases hx⟩
      | node k c s =>
        simp only [buildF] at h
        cases hco : createLayoutObject (.node k c s) po sheet with
        | error e =>
          rw [hco] at h
          simp only [liftBuild, Bind.bind, Except.bind] at h
          exact Except.noConfusion h
        | ok obj? =>
          rw [hco] at h
          simp only [liftBuild, Bind.bind, Except.bind] at h
          cases obj? with
          | none =>
            obtain ⟨hp, hv⟩ := ihb s po sheet t h
            exact ⟨hp, fun x hx => vis_sib sheet k c s x (hv x hx)⟩
          | some data =>
            obtain ⟨hdom, hpk, hpt, hsz, hfd⟩ :=
              createLayoutObject_ok_some k c s po sheet data hco
            have hk2 : data.nodeKind = k := by
              unfold LData.nodeKind
              rw [hdom]
            simp only at h
            cases hfc : buildF fuel c (some ⟨k, data.style⟩) sheet with
            | error e =>
              rw [hfc] at h
              simp only at h
              exact Except.noConfusion h
            | ok fc =>
              rw [hfc] at h
              simp only at h
              cases hns : buildF fuel s none sheet with
              | error e =>
                rw [hns] at h
                simp only at h
                exact Except.noConfusion h
              | ok ns =>
                rw [hns] at h
                simp only at h
                have hfinal : ∀ fc2 ns2,
                    recParentOk (some k) fc2 = true →
                    (∀ x ∈ listDoms fc2, x ∈ visibleDoms sheet c) →
                    recParentOk none ns2 = true →
                    (∀ x ∈ listDoms ns2, x ∈ visibleDoms sheet s) →
                    (Except.ok (LTree.node data fc2 ns2) :
                      Except BuildFail LTree) = .ok t →
                    recParentOk (po.map (·.nodeKind)) t = true ∧
                    ∀ x ∈ listDoms t, x ∈ visibleDoms sheet (.node k c s) := by
                  intro fc2 ns2 hfp hfv hnp hnv he
                  injection he with h2
                  subst h2
                  constructor
                  · simp [recParentOk, hpk, hk2, hfp, hnp]
                  · intro x hx
                    simp only [listDoms, nodesData, List.map_cons,
                      List.map_append, List.mem_cons, List.mem_append] at hx
                    unfold visibleDoms
                    rw [if_neg hfd]
                    rcases hx with hx | hx | hx
                    · rw [hx, hdom]
                      exact List.mem_cons_self _ _
                    · exact List.mem_cons_of_mem _
                        (List.mem_append_left _ (hfv x (by
                          simpa [listDoms] using hx)))
                    · exact List.mem_cons_of_mem _
                        (List.mem_append_right _ (hnv x (by
                          simpa [listDoms] using hx)))
                have hnilv : ∀ (d2 : Dom) (x : Dom),
                    x ∈ listDoms LTree.nil → x ∈ visibleDoms sheet d2 := by
                  intro d2 x hx
                  cases hx
                cases fc with
                | node fd fcc fcs =>
                  simp only at h
                  obtain ⟨hp1, hv1⟩ := ihb c (some ⟨k, data.style⟩) sheet
                    _ hfc
                  cases ns with
                  | node nd ncc ncs =>
                    simp only at h
                    obtain ⟨hp2, hv2⟩ := ihb s none sheet _ hns
                    exact hfinal _ _ hp1 hv1 hp2 hv2 h
                  | nil =>
                    cases s with
                    | nil =>
                      simp only at h
                      exact hfinal (LTree.node fd fcc fcs) LTree.nil hp1 hv1
                        rfl (hnilv _) h
                    | node ks cs ssib =>
                      simp only at h
                      cases hr2 : retryF fuel ssib none sheet with
                      | error e =>
                        rw [hr2] at h
                        simp only at h
                        exact Except.noConfusion h
                      | ok ns2 =>
                        rw [hr2] at h
                        simp only at h
                        obtain ⟨hp2, hv2⟩ := ihr ssib none sheet ns2 hr2
                        exact hfinal _ _ hp1 hv1 hp2 (fun x hx =>
                          vis_sib sheet ks cs ssib x (hv2 x hx)) h
                | nil =>
                  cases c with
                  | nil =>
                    simp only at h
                    cases ns with
                    | node nd ncc ncs =>
                      simp only at h
                      obtain ⟨hp2, hv2⟩ := ihb s none sheet _ hns
                      exact hfinal LTree.nil (LTree.node nd ncc ncs) rfl
                        (hnilv _) hp2 hv2 h
                    | nil =>
                      cases s with
                      | nil =>
                        simp only at h
                        exact hfinal LTree.nil LTree.nil rfl (hnilv _) rfl
                          (hnilv _) h
                      | node ks cs ssib =>
                        simp only at h
                        cases hr2 : retryF fuel ssib none sheet with
                        | error e =>
                          rw [hr2] at h
                          simp only at h
                          exact Except.noConfusion h
                        | ok ns2 =>
                          rw [hr2] at h
                          simp only at h
                          obtain ⟨hp2, hv2⟩ := ihr ssib none sheet ns2 hr2
                          exact hfinal LTree.nil ns2 rfl (hnilv _) hp2
                            (fun x hx =>
                              vis_sib sheet ks cs ssib x (hv2 x hx)) h
                  | node kc cc csib =>
                    simp only at h
                    cases hr1 : retryF fuel csib (some ⟨k, data.style⟩)
                        sheet with
                    | error e =>
                      rw [hr1] at h
                      simp only at h
                      exact Except.noConfusion h
                    | ok fc2 =>
                      rw [hr1] at h
                      simp only at h
                      obtain ⟨hp1, hv1⟩ := ihr csib (some ⟨k, data.style⟩)
                        sheet fc2 hr1
                      have hv1b : ∀ x ∈ listDoms fc2,
                          x ∈ visibleDoms sheet (Dom.node kc cc csib) :=
                        fun x hx => vis_sib sheet kc cc csib x (hv1 x hx)
                      cases ns with
                      | node nd ncc ncs =>
                        simp only at h
                        obtain ⟨hp2, hv2⟩ := ihb s none sheet _ hns
                        exact hfinal _ _ hp1 hv1b hp2 hv2 h
                      | nil =>
                        cases s with
                        | nil =>
                          simp only at h
                          exact hfinal fc2 LTree.nil hp1 hv1b rfl
                            (hnilv _) h
                        | node ks cs ssib =>
                          simp only at h
                          cases hr2 : retryF fuel ssib none sheet with
                          | error e =>
                            rw [hr2] at h
                            simp only at h
                            exact Except.noConfusion h
                          | ok ns2 =>
                            rw [hr2] at h
                            simp only at h
                            obtain ⟨hp2, hv2⟩ := ihr ssib none sheet ns2 hr2
                            exact hfinal fc2 ns2 hp1 hv1b hp2 (fun x hx =>
                              vis_sib sheet ks cs ssib x (hv2 x hx)) h
    · intro d po sheet t h
      simp only [retryF, Bind.bind, Except.bind] at h
      cases hb : buildF fuel d po sheet with
      | error e =>
        rw [hb] at h
        simp only at h
        exact Except.noConfusion h
      | ok r =>
        rw [hb] at h
        simp only at h
        cases r with
        | nil =>
          cases d with
          | nil =>
            injection h with h2
            subst h2
            exact ⟨rfl, by intro x hx; cases hx⟩
          | node kd cd sd =>
            obtain ⟨hp, hv⟩ := ihr sd po sheet t h
            exact ⟨hp, fun x hx => vis_sib sheet kd cd sd x (hv x hx)⟩
        | node rd rc rs =>
          injection h with h2
          subst h2
          exact ihb d po sheet _ hb

/-- Helper: `compute_size` only changes the size field. -/
theorem computeSize_pres (d : LData) (ch : LTree) (ps : LayoutSize)
    (d2 : LData) (h : computeSize d ch ps = .ok d2) :
    ({ d2 with point := ⟨0, 0⟩, size := ⟨0, 0⟩ } : LData) =
      { d with point := ⟨0, 0⟩, size := ⟨0, 0⟩ } := by
  unfold computeSize at h
  split at h
  · injection h with h2
    rw [← h2]
  · injection h with h2
    rw [← h2]
  · split at h
    · simp only [Bind.bind, Except.bind] at h
      cases hfs : cssGet d.style.fontSize "font_size" with
      | error e =>
        rw [hfs] at h
        exact Except.noConfusion h
      | ok fs =>
        rw [hfs] at h
        simp only at h
        split at h
        · simp only [pure, Except.pure] at h
          injection h with h2
          rw [← h2]
        · simp only [pure, Except.pure] at h
          injection h with h2
          rw [← h2]
    · injection h with h2
      rw [← h2]

/-- Helper: the size pass keeps the skeleton of the tree. -/
theorem calcSize_skel : ∀ (t : LTree) (ps : LayoutSize) (t2 : LTree),
    calculateNodeSize t ps = .ok t2 → skeleton t2 = skeleton t := by
  intro t
  induction t with
  | nil =>
    intro ps t2 h
    injection h with h2
    rw [← h2]
  | node d c s ihc ihs =>
    intro ps t2 h
    simp only [calculateNodeSize, Bind.bind, Except.bind] at h
    by_cases hk : d.kind = .block
    · rw [if_pos hk] at h
      cases hd1 : computeSize d c ps with
      | error e =>
        rw [hd1] at h
        exact Except.noConfusion h
      | ok d1 =>
        rw [hd1] at h
        simp only at h
        have hd1p : ({ d1 with point := ⟨0, 0⟩, size := ⟨0, 0⟩ } : LData) =
            { d with point := ⟨0, 0⟩, size := ⟨0, 0⟩ } :=
          computeSize_pres d c ps d1 hd1
        cases hc2 : calculateNodeSize c d1.size with
        | error e =>
          rw [hc2] at h
          exact Except.noConfusion h
        | ok c2 =>
          rw [hc2] at h
          simp only at h
          cases hs2 : calculateNodeSize s ps with
          | error e =>
            rw [hs2] at h
            exact Except.noConfusion h
          | ok s2 =>
            rw [hs2] at h
            simp only at h
            cases hd3 : computeSize d1 c2 ps with
            | error e =>
              rw [hd3] at h
              exact Except.noConfusion h
            | ok d3 =>
              rw [hd3] at h
              simp only [pure, Except.pure] at h
              injection h with h2
              rw [← h2]
              simp only [skeleton]
              rw [computeSize_pres d1 c2 ps d3 hd3, hd1p,
                ihc d1.size c2 hc2, ihs ps s2 hs2]
    · rw [if_neg hk] at h
      simp only [pure, Except.pure] at h
      cases hc2 : calculateNodeSize c d.size with
      | error e =>
        rw [hc2] at h
        exact Except.noConfusion h
      | ok c2 =>
        rw [hc2] at h
        simp only at h
        cases hs2 : calculateNodeSize s ps with
        | error e =>
          rw [hs2] at h
          exact Except.noConfusion h
        | ok s2 =>
          rw [hs2] at h
          simp only at h
          cases hd3 : computeSize d c2 ps with
          | error e =>
            rw [hd3] at h
            exact Except.noConfusion h
          | ok d3 =>
            rw [hd3] at h
            simp only [pure, Except.pure] at h
            injection h with h2
            rw [← h2]
            simp only [skeleton]
            rw [computeSize_pres d c2 ps d3 hd3,
              ihc d.size c2 hc2, ihs ps s2 hs2]

/-- Helper: the position pass keeps the skeleton of the tree. -/
theorem calcPos_skel : ∀ (t : LTree) (pp : LayoutPoint)
    (pk : LayoutObjectKind) (ppt : Option LayoutPoint)
    (pps : Option LayoutSize),
    skeleton (calculateNodePosition t pp pk ppt pps) = skeleton t := by
  intro t
  induction t with
  | nil => intro pp pk ppt pps; rfl
  | node d c s ihc ihs =>
    intro pp pk ppt pps
    simp only [calculateNodePosition, skeleton]
    rw [ihc, ihs]

/-- Helper: the skeleton keeps the referenced DOM nodes. -/
theorem listDoms_skel : ∀ t : LTree, listDoms (skeleton t) = listDoms t := by
  intro t
  induction t with
  | nil => rfl
  | node d c s ihc ihs =>
    simp only [listDoms, nodesData, skeleton, List.map_cons,
      List.map_append] at ihc ihs ⊢
    rw [ihc, ihs]

/-- Helper: the skeleton keeps the recorded parent links. -/
theorem recParentOk_skel : ∀ (t : LTree) (pk : Option NodeKind),
    recParentOk pk (skeleton t) = recParentOk pk t := by
  intro t
  induction t with
  | nil => intro pk; rfl
  | node d c s ihc ihs =>
    intro pk
    have hnk : ({ d with point := ⟨0, 0⟩, size := ⟨0, 0⟩ } : LData).nodeKind
        = d.nodeKind := rfl
    have hpk2 :
        ({ d with point := ⟨0, 0⟩, size := ⟨0, 0⟩ } : LData).parentKind =
          d.parentKind := rfl
    simp only [skeleton, recParentOk, hnk, hpk2, ihc, ihs]

/-- Helper: a successful `update_layout` keeps the skeleton. -/
theorem updateLayout_skel (root : LTree) (t : LTree)
    (h : updateLayout root = .ok t) : skeleton t = skeleton root := by
  simp only [updateLayout, Bind.bind, Except.bind] at h
  cases hsz : calculateNodeSize root ⟨contentAreaWidth, 0⟩ with
  | error e =>
    rw [hsz] at h
    exact Except.noConfusion h
  | ok sized =>
    rw [hsz] at h
    simp only [pure, Except.pure] at h
    injection h with h2
    rw [← h2, calcPos_skel]
    exact calcSize_skel root ⟨contentAreaWidth, 0⟩ sized hsz

/-- Helper: a successful `LayoutView::new` yields a tree with the
skeleton of the raw builder output for the `<body>` subtree. -/
theorem layoutViewNew_skel (root : Dom) (sheet : StyleSheet) (t : LTree)
    (h : layoutViewNew root sheet = .ok t) :
    ∃ tree, buildLayoutTree (getTargetElementNode root .body) none sheet =
      .ok tree ∧ skeleton t = skeleton tree := by
  simp only [layoutViewNew, Bind.bind, Except.bind] at h
  cases hb : buildLayoutTree (getTargetElementNode root .body) none
      sheet with
  | error e =>
    rw [hb] at h
    exact Except.noConfusion h
  | ok tree =>
    rw [hb] at h
    simp only at h
    exact ⟨tree, rfl, updateLayout_skel tree t (liftBuild_ok _ t h)⟩

/-! ## Claim C1 — `display:none` subtrees and the layout tree -/

/-- C1: the claim quantifies over the whole DOM, but the layout view is
built from the `<body>` element only, so a `display:none` ancestor of
`<body>` is never consulted: with `html { display: none; }`, `<body>` is
a DOM descendant of an element whose final display is `none`, yet the
built layout tree holds a layout object for it. -/
theorem c1_counterexample :
    finalDisplay c1sheet (.element ⟨.html, []⟩) = .displayNone ∧
    c1body ∈ childDescendants c1html ∧
    layoutViewNew c1dom c1sheet = .ok c1tree ∧
    c1body ∈ listDoms c1tree := by
  exact ⟨by decide, by decide, by decide, by decide⟩

/-- C1 (amended): restricted to the subtree the builder actually walks
— the one rooted at the first `<body>` element — the invariant holds:
every DOM occurrence referenced by the built layout tree is visible
under the stylesheet (no dropped `display:none` subtree of the body
contains it), and no referenced occurrence has final display `none`
itself. -/
theorem c1_amended : ∀ (dom : Dom) (sheet : StyleSheet) (t : LTree),
    layoutViewNew dom sheet = .ok t →
    ∀ x ∈ listDoms t,
      x ∈ visibleDoms sheet (getTargetElementNode dom .body) ∧
      ∀ k c s, x = Dom.node k c s →
        finalDisplay sheet k ≠ .displayNone := by
  intro dom sheet t h x hx
  obtain ⟨tree, hb, hskel⟩ := layoutViewNew_skel dom sheet t h
  have hld : listDoms t = listDoms tree := by
    rw [← listDoms_skel t, hskel, listDoms_skel tree]
  rw [hld] at hx
  obtain ⟨hp, hvis⟩ := (buildF_invariant
    (2 * (getTargetElementNode dom .body).size + 2)).1
    (getTargetElementNode dom .body) none sheet tree hb
  have hxv := hvis x hx
  exact ⟨hxv, fun k c s hxe =>
    visibleDoms_display sheet _ x hxv k c s hxe⟩

/-- C1 witness: the amended statement on the concrete document — the
laid-out `<body>` is visible in the body subtree and its display is not
`none`. -/
theorem c1_amended_witness :
    c1body ∈ visibleDoms c1sheet (getTargetElementNode c1dom .body) ∧
    ∀ k c s, c1body = Dom.node k c s →
      finalDisplay c1sheet k ≠ .displayNone := by
  exact c1_amended c1dom c1sheet c1tree (by decide) c1body (by decide)

/-! ## Claim C8 — `Page::clicked` and the weak parent link -/

/-- C8: the claim says `clicked` returns the URL exactly when the hit
node's direct parent in the layout tree is an `<a>` with an `href`; in
the tree built for `c8dom` the hit node at `(0, 0)` is the second
`<p>`, whose structural parent in the layout tree is the
`<a href="u">` (the hit node is a later sibling of the `<a>`'s first
child), yet `clicked` returns `none`: the weak parent link it consults
was recorded as empty when the node was built as a sibling. -/
theorem c8_counterexample :
    layoutViewNew c8dom ⟨[]⟩ = .ok c8tree ∧
    findNodeByPositionInternal c8tree (0, 0) =
      some (.node ⟨.block, c8pp, styleOf .block .none, none, ⟨0, 0⟩,
        ⟨0, 0⟩⟩ .nil .nil) ∧
    ((⟨.block, c8pp, styleOf .block .none, none, ⟨0, 0⟩, ⟨0, 0⟩⟩ : LData),
        some (NodeKind.element ⟨.a, [⟨"href", "u"⟩]⟩)) ∈
      treeParentKinds none c8tree ∧
    Element.getAttribute ⟨.a, [⟨"href", "u"⟩]⟩ "href" = some "u" ∧
    clicked (some c8tree) (0, 0) = none := by
  exact ⟨by decide, by decide, by decide, by decide, by decide⟩

/-- C8 (amended): `clicked` with no layout view returns `None`;
otherwise it consults only the recorded weak parent link of the hit
node — and on every tree the view builder produces, that link carries
the creator's DOM kind at the head of each child chain and is empty on
every later sibling, so an `<a>` that is the hit node's structural
parent but not its recorded creator yields `None`, as does any more
distant ancestor. -/
theorem c8_amended : ∀ (dom : Dom) (sheet : StyleSheet) (t : LTree)
    (pos : Int × Int),
    layoutViewNew dom sheet = .ok t →
    recParentOk none t = true ∧
    (∀ n c2 s2, findNodeByPositionInternal t pos = some (.node n c2 s2) →
      clicked (some t) pos =
        (match n.parentKind with
         | some (.element e) =>
           if e.kind = .a then e.getAttribute "href" else none
         | _ => none)) ∧
    clicked none pos = none := by
  intro dom sheet t pos h
  obtain ⟨tree, hb, hskel⟩ := layoutViewNew_skel dom sheet t h
  refine ⟨?_, ?_, rfl⟩
  · rw [← recParentOk_skel t none, hskel, recParentOk_skel tree none]
    exact ((buildF_invariant
      (2 * (getTargetElementNode dom .body).size + 2)).1
      (getTargetElementNode dom .body) none sheet tree hb).1
  · intro n c2 s2 hf
    rw [show clicked (some t) pos =
      (match findNodeByPositionInternal t pos with
        | some (.node n _ _) =>
          match n.parentKind with
          | some (.element e) =>
            if e.kind = .a then e.getAttribute "href" else none
          | _ => none
        | _ => none) from rfl, hf]

/-- C8 witness: the amended statement on the concrete document — the
built tree's recorded parent links match the construction, and a click
with no layout view yields `None`. -/
theorem c8_amended_witness :
    recParentOk none c8tree = true ∧ clicked none (0, 0) = none := by
  have h := c8_amended c8dom ⟨[]⟩ c8tree (0, 0) (by decide)
  exact ⟨h.1, h.2.2⟩

/-! ## Fuel sufficiency of the embedded builder -/

/-- Helper: every DOM handle has at least one node of size. -/
theorem Dom.size_pos : ∀ d : Dom, 1 ≤ d.size := by
  intro d
  cases d <;> simp only [Dom.size] <;> omega

/-- Helper: fuel bounds under which neither `buildF` nor `retryF` can
run out of fuel — `2 * size` for the builder and one more for the
retry loop. -/
theorem build_retry_fuel : ∀ fuel : Nat,
    (∀ (d : Dom) (po : Option LParent) (sheet : StyleSheet),
      2 * d.size ≤ fuel → buildF fuel d po sheet ≠ .error .fuelOut) ∧
    (∀ (d : Dom) (po : Option LParent) (sheet : StyleSheet),
      2 * d.size + 1 ≤ fuel → retryF fuel d po sheet ≠ .error .fuelOut) := by
  intro fuel
  induction fuel with
  | zero =>
    constructor <;> intro d po sheet hf <;>
      exact absurd hf (by have := Dom.size_pos d; omega)
  | succ fuel ih =>
    obtain ⟨ihb, ihr⟩ := ih
    constructor
    · intro d po sheet hf
      cases d with
      | nil =>
        intro h
        exact Except.noConfusion h
      | node k c s =>
        simp only [Dom.size] at hf
        intro h
        simp only [buildF] at h
        cases hco : createLayoutObject (.node k c s) po sheet with
        | error e =>
          rw [hco] at h
          simp only [liftBuild, Bind.bind, Except.bind] at h
          injection h with h2
          exact BuildFail.noConfusion h2
        | ok obj? =>
          rw [hco] at h
          simp only [liftBuild, Bind.bind, Except.bind] at h
          cases obj? with
          | none => exact ihb s po sheet (by omega) h
          | some data =>
            simp only at h
            cases hfc : buildF fuel c (some ⟨k, data.style⟩) sheet with
            | error e =>
              rw [hfc] at h
              simp only at h
              injection h with h2
              subst h2
              exact ihb c (some ⟨k, data.style⟩) sheet (by omega) hfc
            | ok fc =>
              rw [hfc] at h
              simp only at h
              cases hns : buildF fuel s none sheet with
              | error e =>
                rw [hns] at h
                simp only at h
                injection h with h2
                subst h2
                exact ihb s none sheet (by omega) hns
              | ok ns =>
                rw [hns] at h
                simp only [pure, Except.pure] at h
                cases fc with
                | node fd fcc fcs =>
                  cases ns with
                  | node nd ncc ncs => exact Except.noConfusion h
                  | nil =>
                    cases s with
                    | nil => exact Except.noConfusion h
                    | node ks cs ssib =>
                      simp only [Dom.size] at hf
                      simp only at h
                      cases hr2 : retryF fuel ssib none sheet with
                      | error e =>
                        rw [hr2] at h
                        injection h with h2
                        subst h2
                        exact ihr ssib none sheet (by omega) hr2
                      | ok ns2 =>
                        rw [hr2] at h
                        exact Except.noConfusion h
                | nil =>
                  cases c with
                  | nil =>
                    cases ns with
                    | node nd ncc ncs => exact Except.noConfusion h
                    | nil =>
                      cases s with
                      | nil => exact Except.noConfusion h
                      | node ks cs ssib =>
                        simp only [Dom.size] at hf
                        simp only at h
                        cases hr2 : retryF fuel ssib none sheet with
                        | error e =>
                          rw [hr2] at h
                          injection h with h2
                          subst h2
                          exact ihr ssib none sheet (by omega) hr2
                        | ok ns2 =>
                          rw [hr2] at h
                          exact Except.noConfusion h
                  | node kc cc csib =>
                    simp only [Dom.size] at hf
                    simp only at h
                    cases hr1 : retryF fuel csib (some ⟨k, data.style⟩)
                        sheet with
                    | error e =>
                      rw [hr1] at h
                      injection h with h2
                      subst h2
                      exact ihr csib (some ⟨k, data.style⟩) sheet
                        (by omega) hr1
                    | ok fc2 =>
                      rw [hr1] at h
                      cases ns with
                      | node nd ncc ncs => exact Except.noConfusion h
                      | nil =>
                        cases s with
                        | nil => exact Except.noConfusion h
                        | node ks cs ssib =>
                          simp only [Dom.size] at hf
                          simp only at h
                          cases hr2 : retryF fuel ssib none sheet with
                          | error e =>
                            rw [hr2] at h
                            injection h with h2
                            subst h2
                            exact ihr ssib none sheet (by omega) hr2
                          | ok ns2 =>
                            rw [hr2] at h
                            exact Except.noConfusion h
    · intro d po sheet hf
      intro h
      simp only [retryF, Bind.bind, Except.bind] at h
      cases hb : buildF fuel d po sheet with
      | error e =>
        rw [hb] at h
        simp only at h
        injection h with h2
        subst h2
        exact ihb d po sheet (by omega) hb
      | ok r =>
        rw [hb] at h
        simp only at h
        cases r with
        | nil =>
          cases d with
          | nil =>
            simp only at h
            exact Except.noConfusion h
          | node kd cd sd =>
            simp only [Dom.size] at hf
            simp only at h
            exact ihr sd po sheet (by omega) h
        | node rd rc rs =>
          simp only at h
          exact Except.noConfusion h

/-- The fuel `2 * d.size + 2` used by `buildLayoutTree` is sufficient:
the embedded builder never reports `fuelOut` there, so every `fuelOut`
of the embedding would be a genuine non-termination of the original
recursion (which cannot happen). -/
theorem buildF_no_fuelOut (d : Dom) (po : Option LParent)
    (sheet : StyleSheet) :
    buildF (2 * d.size + 2) d po sheet ≠ .error .fuelOut :=
  (build_retry_fuel (2 * d.size + 2)).1 d po sheet (by omega)

/-! ## Fuel sufficiency of the embedded CSS tokenizer -/

/-- Helper: an index with a value is in range. -/
theorem getElem_some_lt {l : List Char} {i : Nat} {c : Char}
    (h : l[i]? = some c) : i < l.length := by
  by_contra hge
  rw [List.getElem?_eq_none (by omega)] at h
  exact Option.noConfusion h

/-- Helper: the string loop cannot run out of the remaining-input
fuel. -/
theorem consumeStringTokenF_fuel : ∀ (fuel : Nat) (ts : CssTS)
    (acc : String), ts.pos < ts.input.length →
    ts.input.length - ts.pos ≤ fuel →
    consumeStringTokenF fuel ts acc ≠ .error .fuelOut := by
  intro fuel
  induction fuel with
  | zero =>
    intro ts acc hlt hle
    exact absurd hle (by omega)
  | succ fuel ih =>
    intro ts acc hlt hle h
    simp only [consumeStringTokenF] at h
    rw [if_neg (by omega)] at h
    cases hx : ts.input[ts.pos + 1]? with
    | none =>
      rw [hx] at h
      injection h with h2
      exact CssFail.noConfusion h2
    | some c =>
      rw [hx] at h
      simp only at h
      split at h
      · exact Except.noConfusion h
      · have hlt2 : ts.pos + 1 < ts.input.length := getElem_some_lt hx
        exact ih ⟨ts.pos + 1, ts.input⟩ (acc.push c) hlt2
          (show ts.input.length - (ts.pos + 1) ≤ fuel by omega) h

/-- Helper: the numeric loop cannot run out of fuel exceeding the
remaining input. -/
theorem consumeNumericTokenF_fuel : ∀ (fuel : Nat) (ts : CssTS)
    (acc : List Char), ts.input.length - ts.pos < fuel →
    consumeNumericTokenF fuel ts acc ≠ .error .fuelOut := by
  intro fuel
  induction fuel with
  | zero =>
    intro ts acc hlt
    exact absurd hlt (by omega)
  | succ fuel ih =>
    intro ts acc hlt h
    simp only [consumeNumericTokenF] at h
    cases hx : ts.input[ts.pos]? with
    | none =>
      rw [hx] at h
      exact Except.noConfusion h
    | some c =>
      rw [hx] at h
      simp only at h
      split at h
      · have hl2 : ts.pos < ts.input.length := getElem_some_lt hx
        exact ih ⟨ts.pos + 1, ts.input⟩ (acc ++ [c])
          (show ts.input.length - (ts.pos + 1) < fuel by omega) h
      · exact Except.noConfusion h

/-- Helper: the identifier loop cannot run out of the remaining-input
fuel (it panics at the end of the input instead). -/
theorem consumeIdentLoopF_fuel : ∀ (fuel : Nat) (ts : CssTS)
    (acc : String), ts.pos < ts.input.length →
    ts.input.length - ts.pos ≤ fuel →
    consumeIdentLoopF fuel ts acc ≠ .error .fuelOut := by
  intro fuel
  induction fuel with
  | zero =>
    intro ts acc hlt hle
    exact absurd hle (by omega)
  | succ fuel ih =>
    intro ts acc hlt hle h
    simp only [consumeIdentLoopF] at h
    cases hx : ts.input[ts.pos + 1]? with
    | none =>
      rw [hx] at h
      injection h with h2
      exact CssFail.noConfusion h2
    | some c =>
      rw [hx] at h
      simp only at h
      split at h
      · have hlt2 : ts.pos + 1 < ts.input.length := getElem_some_lt hx
        exact ih ⟨ts.pos + 1, ts.input⟩ (acc.push c) hlt2
          (show ts.input.length - (ts.pos + 1) ≤ fuel by omega) h
      · exact Except.noConfusion h

/-- Helper: `consume_ident_token` cannot run out of the remaining-input
fuel. -/
theorem consumeIdentToken_fuel (fuel : Nat) (ts : CssTS)
    (hle : ts.input.length - ts.pos ≤ fuel) :
    consumeIdentToken fuel ts ≠ .error .fuelOut := by
  intro h
  simp only [consumeIdentToken] at h
  cases hx : ts.input[ts.pos]? with
  | none =>
    rw [hx] at h
    injection h with h2
    exact CssFail.noConfusion h2
  | some c0 =>
    rw [hx] at h
    exact consumeIdentLoopF_fuel fuel ts (String.singleton c0)
      (getElem_some_lt hx) hle h

/-- Helper: one tokenizer step cannot run out of fuel exceeding the
remaining input by two. -/
theorem cssNextF_fuel : ∀ (fuel : Nat) (ts : CssTS),
    ts.input.length - ts.pos + 2 ≤ fuel →
    cssNextF fuel ts ≠ .error .fuelOut := by
  intro fuel
  induction fuel with
  | zero =>
    intro ts hle
    exact absurd hle (by omega)
  | succ fuel ih =>
    intro ts hle h
    rw [cssNextF] at h
    split at h
    · exact Except.noConfusion h
    · rename_i c hx
      have hl : ts.pos < ts.input.length := getElem_some_lt hx
      by_cases hc0 : (c = '(')
      · rw [if_pos hc0] at h
        exact Except.noConfusion h
      rw [if_neg hc0] at h
      by_cases hc1 : (c = ')')
      · rw [if_pos hc1] at h
        exact Except.noConfusion h
      rw [if_neg hc1] at h
      by_cases hc2 : (c = ',')
      · rw [if_pos hc2] at h
        exact Except.noConfusion h
      rw [if_neg hc2] at h
      by_cases hc3 : (c = '.')
      · rw [if_pos hc3] at h
        exact Except.noConfusion h
      rw [if_neg hc3] at h
      by_cases hc4 : (c = ':')
      · rw [if_pos hc4] at h
        exact Except.noConfusion h
      rw [if_neg hc4] at h
      by_cases hc5 : (c = ';')
      · rw [if_pos hc5] at h
        exact Except.noConfusion h
      rw [if_neg hc5] at h
      by_cases hc6 : (c = '{')
      · rw [if_pos hc6] at h
        exact Except.noConfusion h
      rw [if_neg hc6] at h
      by_cases hc7 : (c = '}')
      · rw [if_pos hc7] at h
        exact Except.noConfusion h
      rw [if_neg hc7] at h
      by_cases hc8 : (c = ' ' ∨ c = '\n')
      · rw [if_pos hc8] at h
        exact ih ⟨ts.pos + 1, ts.input⟩
          (show ts.input.length - (ts.pos + 1) + 2 ≤ fuel by omega) h
      rw [if_neg hc8] at h
      by_cases hc9 : (c = '"' ∨ c = '\'')
      · rw [if_pos hc9] at h
        cases hs : consumeStringTokenF fuel ts "" with
        | error e =>
          rw [hs] at h
          injection h with h2
          subst h2
          exact consumeStringTokenF_fuel fuel ts "" hl (by omega) hs
        | ok v =>
          rw [hs] at h
          exact Except.noConfusion h
      rw [if_neg hc9] at h
      by_cases hc10 : ('0' ≤ c ∧ c ≤ '9')
      · rw [if_pos hc10] at h
        cases hs : consumeNumericTokenF fuel ts [] with
        | error e =>
          rw [hs] at h
          injection h with h2
          subst h2
          exact consumeNumericTokenF_fuel fuel ts [] (by omega) hs
        | ok v =>
          rw [hs] at h
          exact Except.noConfusion h
      rw [if_neg hc10] at h
      by_cases hc11 : (c = '#')
      · rw [if_pos hc11] at h
        cases hs : consumeIdentToken fuel ts with
        | error e =>
          rw [hs] at h
          injection h with h2
          subst h2
          exact consumeIdentToken_fuel fuel ts (by omega) hs
        | ok v =>
          rw [hs] at h
          exact Except.noConfusion h
      rw [if_neg hc11] at h
      by_cases hc12 : (c = '-')
      · rw [if_pos hc12] at h
        cases hs : consumeIdentToken fuel ts with
        | error e =>
          rw [hs] at h
          injection h with h2
          subst h2
          exact consumeIdentToken_fuel fuel ts (by omega) hs
        | ok v =>
          rw [hs] at h
          exact Except.noConfusion h
      rw [if_neg hc12] at h
      by_cases hc13 : (c = '@')
      · rw [if_pos hc13] at h
        cases hx1 : ts.input[ts.pos + 1]? with
        | none =>
          rw [hx1] at h
          injection h with h2
          exact CssFail.noConfusion h2
        | some c1 =>
          rw [hx1] at h
          cases hx2 : ts.input[ts.pos + 2]? with
          | none =>
            rw [hx2] at h
            injection h with h2
            exact CssFail.noConfusion h2
          | some c2 =>
            rw [hx2] at h
            cases hx3 : ts.input[ts.pos + 3]? with
            | none =>
              rw [hx3] at h
              injection h with h2
              exact CssFail.noConfusion h2
            | some c3 =>
              rw [hx3] at h
              simp only at h
              by_cases hab : (c1.isAlpha = true ∧ c2.isAlphanum = true ∧ c3.isAlphanum = true)
              · rw [if_pos hab] at h
                cases hs : consumeIdentToken fuel ⟨ts.pos + 1, ts.input⟩ with
                | error e =>
                  rw [hs] at h
                  injection h with h2
                  subst h2
                  exact consumeIdentToken_fuel fuel ⟨ts.pos + 1, ts.input⟩
                    (show ts.input.length - (ts.pos + 1) ≤ fuel by omega) hs
                | ok v =>
                  rw [hs] at h
                  exact Except.noConfusion h
              · rw [if_neg hab] at h
                exact Except.noConfusion h
      rw [if_neg hc13] at h
      by_cases hc14 : (('a' ≤ c ∧ c ≤ 'z') ∨ ('A' ≤ c ∧ c ≤ 'Z') ∨ c = '_')
      · rw [if_pos hc14] at h
        cases hs : consumeIdentToken fuel ts with
        | error e =>
          rw [hs] at h
          injection h with h2
          subst h2
          exact consumeIdentToken_fuel fuel ts (by omega) hs
        | ok v =>
          rw [hs] at h
          exact Except.noConfusion h
      rw [if_neg hc14] at h
      injection h with h2
      exact CssFail.noConfusion h2

/-- The fuel `input.length - pos + 2` used by `cssNext` is sufficient:
the embedded tokenizer never reports `fuelOut` there. -/
theorem cssNextF_no_fuelOut (ts : CssTS) :
    cssNextF (ts.input.length - ts.pos + 2) ts ≠ .error .fuelOut :=
  cssNextF_fuel (ts.input.length - ts.pos + 2) ts (by omega)

end Saba
